import Mathlib

/-!
Shallow embedding of the FPO records tooling (src/checker.py and
src/wrapped.py) and proofs about the claims of its specification.

Modelling conventions, fixed once for the whole file:

* A CSV source file is a pair of its name and its already tokenized rows
  (`List (List String)`); the spec excludes CSV tokenization and file-system
  traversal from the core, so a directory is a `List (String × List (List String))`.
* Python `float` weights are modelled as `ℚ`; the programs only compare,
  subtract and add weights, never rely on rounding.
* Python's `float(...)` parser is an external collaborator, passed in as a
  parameter `pf : String → Option ℚ` (`none` models `ValueError`).
* Python dicts keyed by strings (`records`, the Counters) are modelled as
  functions `String → Option _` / `String → Nat` / `String → ℚ`; the programs
  never iterate over `records`, and the claims read the counters pointwise.
* Printed warning lines are modelled by the inductive `Checker.Warning`, one
  constructor per f-string of the source, whose fields are exactly the
  interpolated values.
* Python string order, `str.strip`, `str.split("|")` and `str.endswith` are
  re-implemented over `String.data` character lists (code-point order, ASCII
  whitespace), so that every definition evaluates inside the kernel.
-/

/-- Lexicographic (code-point) order on character lists: the model of Python's
string comparison used by `sorted`. -/
def chars_le : List Char → List Char → Bool
  | [], _ => true
  | _ :: _, [] => false
  | a :: as, b :: bs =>
    if a < b then true
    else if b < a then false
    else chars_le as bs

/-- Python string `<=`. -/
def str_le (a b : String) : Bool := chars_le a.data b.data

/-- Python `str.strip()`: drop leading and trailing whitespace. -/
def strip (s : String) : String :=
  ⟨(((s.data.dropWhile Char.isWhitespace).reverse).dropWhile Char.isWhitespace).reverse⟩

/-- Python `key.split("|")` on the character list: always non-empty, one part
per stretch between pipes. -/
def split_on_pipe : List Char → List (List Char)
  | [] => [[]]
  | '|' :: rest => [] :: split_on_pipe rest
  | c :: rest =>
    match split_on_pipe rest with
    | [] => [[c]]
    | h :: t => (c :: h) :: t

/-- Numeric value of a decimal digit character. -/
def digit_val (c : Char) : Nat := c.toNat - 48

/-- The filename pattern `^(\d{4})(?:-(\d{2})-(\d{2}))?\.csv$` of both
programs: `YYYY.csv` parses with month and day 0, `YYYY-MM-DD.csv` with the
embedded month and day. (Python's `\d` also accepts non-ASCII decimal digits;
the model restricts to ASCII.) -/
def parse_filename (s : String) : Option (Nat × Nat × Nat) :=
  match s.data with
  | [y1, y2, y3, y4, '.', 'c', 's', 'v'] =>
    if y1.isDigit && y2.isDigit && y3.isDigit && y4.isDigit then
      some (digit_val y1 * 1000 + digit_val y2 * 100 + digit_val y3 * 10 + digit_val y4, 0, 0)
    else none
  | [y1, y2, y3, y4, '-', m1, m2, '-', d1, d2, '.', 'c', 's', 'v'] =>
    if y1.isDigit && y2.isDigit && y3.isDigit && y4.isDigit &&
        m1.isDigit && m2.isDigit && d1.isDigit && d2.isDigit then
      some (digit_val y1 * 1000 + digit_val y2 * 100 + digit_val y3 * 10 + digit_val y4,
        digit_val m1 * 10 + digit_val m2, digit_val d1 * 10 + digit_val d2)
    else none
  | _ => none

/-- The sort key comparison of `sorted_record_files` / `sorted_event_files`:
ascending `(year, month, day, name)`. -/
def date_name_le (a b : (Nat × Nat × Nat) × String) : Bool :=
  decide (a.1.1 < b.1.1) ||
    (decide (a.1.1 = b.1.1) &&
      (decide (a.1.2.1 < b.1.2.1) ||
        (decide (a.1.2.1 = b.1.2.1) &&
          (decide (a.1.2.2 < b.1.2.2) ||
            (decide (a.1.2.2 = b.1.2.2) && str_le a.2 b.2)))))

/-- `checker.sorted_record_files`: keep the names matching the pattern, pair
them with the parsed `(year, month, day)`, and sort ascending by
`(year, month, day, name)`. Python's `list.sort` is a stable sort by this
key; it is modelled by the (equally stable) insertion sort. -/
def sorted_record_files (names : List String) : List ((Nat × Nat × Nat) × String) :=
  (names.filterMap (fun n => (parse_filename n).map (fun dt => (dt, n)))).insertionSort
    (fun a b => date_name_le a b = true)

/-- A source file as consumed by the replay loops: its parsed date, its name
and its tokenized rows. -/
structure SourceFile where
  date : Nat × Nat × Nat
  name : String
  rows : List (List String)
deriving DecidableEq

/-- Sort key comparison lifted to payload-carrying source files (the rows are
not part of the key, exactly as in the Python sort over `(date, path)`). -/
def file_le (a b : SourceFile) : Bool := date_name_le (a.date, a.name) (b.date, b.name)

/-- The payload-carrying form of the sequencer shared by `checker.main`
(`sorted_record_files(root)`) and `wrapped.build_report`
(`sorted_event_files(root)`): same filter, same sort key, with each file's
rows kept attached for the replay that follows. -/
def sorted_source_files (root : List (String × List (List String))) : List SourceFile :=
  (root.filterMap (fun p => (parse_filename p.1).map (fun dt => SourceFile.mk dt p.1 p.2))).insertionSort
    (fun a b => file_le a b = true)

namespace Checker

/-- `SEXES` of checker.py. -/
def SEXES : List String := ["M", "F"]

/-- `MALE_CLASSES` of checker.py. -/
def MALE_CLASSES : List String :=
  ["52", "56", "60", "67.5", "75", "82.5", "90", "100", "110", "125", "140", "SHW"]

/-- `FEMALE_CLASSES` of checker.py. -/
def FEMALE_CLASSES : List String :=
  ["44", "48", "52", "56", "60", "67.5", "75", "82.5", "90", "100", "110", "SHW"]

/-- `DIVISIONS` of checker.py. -/
def DIVISIONS : List String :=
  ["Open", "Youth", "T13-15", "T16-17", "T18-19", "J20-23", "M40-44", "M45-49",
    "M50-54", "M55-59", "M60-64", "M65-69", "M70-74", "M75-79", "M80+"]

/-- `LIFTS` of checker.py. -/
def LIFTS : List String := ["S", "B", "D", "SBD"]

/-- `EVENTS` of checker.py. -/
def EVENTS : List String := ["SBD", "B", "D"]

/-- `EQUIPMENT` of checker.py. -/
def EQUIPMENT : List String := ["Raw", "Wraps", "Sleeves", "Bare", "Single-ply", "Multi-ply", "Unlimited"]

/-- The f-string `f"{sex}|{division}|{event}|{eq}|{weight}|{lift}"`. -/
def mkKey (sex division event eqp weight lift : String) : String :=
  sex ++ "|" ++ division ++ "|" ++ event ++ "|" ++ eqp ++ "|" ++ weight ++ "|" ++ lift

/-- `divisions_add_tested` of `valid_keyset`: every division plus its `-D`
variant (the Python set is modelled as a list; only membership is ever used). -/
def divisions_add_tested : List String := DIVISIONS ++ DIVISIONS.map (fun d => d ++ "-D")

/-- `checker.valid_keyset()`: the generated keyspace, one string per admissible
combination, with the same guards as the nested loops (the Python set is
modelled as a list; only membership is ever used). -/
def valid_keyset : List String :=
  SEXES.flatMap (fun sex =>
    let weight_classes := if sex = "M" then MALE_CLASSES else FEMALE_CLASSES
    divisions_add_tested.flatMap (fun division =>
      EVENTS.flatMap (fun event =>
        LIFTS.flatMap (fun lift =>
          if ¬ ((lift = "B" ∧ event = "B") ∨ (lift = "D" ∧ event = "D") ∨ event = "SBD") then []
          else
            EQUIPMENT.flatMap (fun eqp =>
              if eqp = "Unlimited" ∧ ¬ (event = "B" ∧ lift = "B") then []
              else if ((lift = "B" ∨ lift = "D") ∧ (eqp = "Bare" ∨ eqp = "Sleeves" ∨ eqp = "Wraps")) ∨
                  ((lift = "S" ∨ lift = "SBD") ∧ eqp = "Raw") then []
              else weight_classes.map (fun weight => mkKey sex division event eqp weight lift))))))

/-- One printed warning line of checker.py, one constructor per f-string,
fields in the order they are interpolated. -/
inductive Warning where
  | noFiles : Warning
  | unrecognizedKey (key file : String) (line : Nat) (name : String) : Warning
  | nonIncreasing (key file : String) (line : Nat) (weight prev : ℚ) (prevSource : String) : Warning
  | invalidWeight (file : String) (line : Nat) (raw : String) : Warning
deriving DecidableEq

/-- One attempt yielded by `checker.read_rows`: 1-based row index, stripped
key, parsed weight, stripped name. -/
structure Row where
  line : Nat
  key : String
  weight : ℚ
  name : String
deriving DecidableEq

/-- The body of `checker.read_rows` on one enumerated raw row: either an
attempt, or nothing plus the immediately printed invalid-weight warning.
(`if not row or len(row) < 2` collapses to the length test: an empty row has
length 0.) -/
def read_row (pf : String → Option ℚ) (file : String) (p : Nat × List String) :
    Option Row × List Warning :=
  if p.2.length < 2 then (none, [])
  else
    let key := strip (p.2.getD 0 "")
    if key = "" then (none, [])
    else
      match pf (p.2.getD 1 "") with
      | none => (none, [Warning.invalidWeight file p.1 (p.2.getD 1 "")])
      | some w =>
        let name := if 2 < p.2.length then strip (p.2.getD 2 "") else ""
        (some ⟨p.1, key, w, name⟩, [])

/-- `checker.read_rows` over a whole file: the attempts in row order, and the
invalid-weight warnings it prints while being consumed (rows enumerate
from 1). -/
def read_rows (pf : String → Option ℚ) (file : String) (rows : List (List String)) :
    List Row × List Warning :=
  let results := (rows.enumFrom 1).map (read_row pf file)
  (results.filterMap Prod.fst, results.flatMap Prod.snd)

/-- The evolving `records` dict of `check_files`: per key, the current best
weight and the file that set it. -/
def Ledger : Type := String → Option (ℚ × String)

/-- `records[key] = (weight, path.name)`. -/
def ledger_set (led : Ledger) (key : String) (v : ℚ × String) : Ledger :=
  fun k => if k = key then some v else led k

/-- The body of the per-attempt loop of `check_files`: append an
unrecognized-key warning when the key is unknown, then create / keep / replace
the ledger entry, appending a non-increasing warning when the attempt does not
strictly improve. -/
def check_row (known : List String) (file : String) (st : List Warning × Ledger) (r : Row) :
    List Warning × Ledger :=
  let ws := if r.key ∈ known then st.1
    else st.1 ++ [Warning.unrecognizedKey r.key file r.line r.name]
  match st.2 r.key with
  | none => (ws, ledger_set st.2 r.key (r.weight, file))
  | some (prev_weight, prev_source) =>
    if r.weight ≤ prev_weight then
      (ws ++ [Warning.nonIncreasing r.key file r.line r.weight prev_weight prev_source], st.2)
    else (ws, ledger_set st.2 r.key (r.weight, file))

/-- One file of the `check_files` loop. -/
def check_file (pf : String → Option ℚ) (known : List String)
    (st : List Warning × Ledger) (f : SourceFile) : List Warning × Ledger :=
  ((read_rows pf f.name f.rows).1).foldl (check_row known f.name) st

/-- `check_files` with the key set as a parameter (the source computes
`known_keys = valid_keyset()` once and closes over it). -/
def check_files_with (pf : String → Option ℚ) (known : List String) (files : List SourceFile) :
    List Warning :=
  if files.isEmpty then [Warning.noFiles]
  else (files.foldl (check_file pf known) ([], fun _ => none)).1

/-- `checker.check_files`. -/
def check_files (pf : String → Option ℚ) (files : List SourceFile) : List Warning :=
  check_files_with pf valid_keyset files

/-- The ledger left behind by the `check_files` loop over `files`. -/
def check_ledger (pf : String → Option ℚ) (known : List String) (files : List SourceFile) :
    Ledger :=
  (files.foldl (check_file pf known) ([], fun _ => none)).2

/-- The invalid-weight warnings printed (not accumulated) while `check_files`
consumes the `read_rows` generators, in file and row order. -/
def printed_parse_warnings (pf : String → Option ℚ) (files : List SourceFile) : List Warning :=
  files.flatMap (fun f => (read_rows pf f.name f.rows).2)

/-- What one run of `checker.main` surfaces: the warnings printed immediately
by `read_rows`, the accumulated warning list printed at the end, and the count
shown in the summary line (`len(warnings)`). -/
structure MainOut where
  printed_parse : List Warning
  warnings : List Warning
  summary_count : Nat

/-- `checker.main` on a directory: sequence the files, replay, report. -/
def main (pf : String → Option ℚ) (root : List (String × List (List String))) : MainOut :=
  let files := sorted_source_files root
  let warnings := check_files pf files
  ⟨printed_parse_warnings pf files, warnings, warnings.length⟩

end Checker

namespace Wrapped

/-- One parsed row of wrapped.py's `read_rows`: stripped key (which may be
empty — there is no key guard in this reader), parsed weight, stripped name,
stripped location (empty when the row is short). -/
structure ParsedRow where
  key : String
  weight : ℚ
  name : String
  location : String
deriving DecidableEq

/-- The body of `wrapped.read_rows` on one raw row (`if not row or len(row) < 3`
collapses to the length test; a failed weight parse is skipped silently). -/
def read_row (pf : String → Option ℚ) (row : List String) : Option ParsedRow :=
  if row.length < 3 then none
  else
    let key := strip (row.getD 0 "")
    match pf (row.getD 1 "") with
    | none => none
    | some w =>
      some ⟨key, w, strip (row.getD 2 ""), if 4 < row.length then strip (row.getD 4 "") else ""⟩

/-- `wrapped.read_rows` over a whole file, in row order. -/
def read_rows (pf : String → Option ℚ) (rows : List (List String)) : List ParsedRow :=
  rows.filterMap (read_row pf)

/-- A calendar date (model of `datetime.date`; constructed only through
`make_date`, so month and day are the defaulted values). -/
structure Date where
  year : Nat
  month : Nat
  day : Nat
deriving DecidableEq

/-- `wrapped.make_date`: month and day fall back to 1 when 0 (Python truthiness
of the int). -/
def make_date (y m d : Nat) : Date := ⟨y, if m = 0 then 1 else m, if d = 0 then 1 else d⟩

/-- Proleptic-Gregorian day number of a date (model of
`datetime.date.toordinal` up to a constant shift; `/` and `%` on `Int` are
floor-like for the positive divisors used here, matching Python). Only
differences of two values are ever used. -/
def rata_die (dt : Date) : Int :=
  let y : Int := if dt.month ≤ 2 then (dt.year : Int) - 1 else (dt.year : Int)
  let mp : Int := ((dt.month : Int) + 9) % 12
  365 * y + y / 4 - y / 100 + y / 400 + (153 * mp + 2) / 5 + ((dt.day : Int) - 1)

/-- `(b - a).days` for two `datetime.date` values. -/
def days_between (a b : Date) : Int := rata_die b - rata_die a

/-- `part.endswith("-D")` on a character-list part. -/
def ends_in_dashD (part : List Char) : Bool :=
  match part.reverse with
  | 'D' :: '-' :: _ => true
  | _ => false

/-- `wrapped.is_tested`: split the key on pipes; fewer than two parts is
`False`, otherwise test whether the division part ends in `-D`. -/
def is_tested (key : String) : Bool :=
  let parts := split_on_pipe key.data
  if parts.length < 2 then false
  else ends_in_dashD (parts.getD 1 [])

/-- `wrapped.is_open_division`: split the key on pipes; fewer than two parts is
`False`, otherwise test the division part against `{"Open", "Open-D"}`. -/
def is_open_division (key : String) : Bool :=
  let parts := split_on_pipe key.data
  if parts.length < 2 then false
  else (parts.getD 1 [] == "Open".data) || (parts.getD 1 [] == "Open-D".data)

/-- One `records` entry of `build_report`: the tuple
`(weight, date, source file name, has exact date)`. -/
structure Entry where
  weight : ℚ
  date : Date
  source : String
  exact_date : Bool
deriving DecidableEq

/-- `IncreaseEvent` of wrapped.py. -/
structure IncreaseEvent where
  name : String
  key : String
  location : String
  previous : ℚ
  new : ℚ
  delta : ℚ
  previous_date : Date
  current_date : Date
  previous_has_exact_date : Bool
  previous_source_file : String
  source_file : String
deriving DecidableEq

/-- The whole state built by `build_report` (its local accumulators plus the
returned dictionary, which is just those accumulators). Counters are read
pointwise; a missing key counts 0. -/
structure Report where
  records : String → Option Entry
  total_broken : Nat
  new_records : Nat
  location_counts : String → Nat
  name_counts : String → Nat
  name_counts_untested : String → Nat
  name_counts_tested : String → Nat
  increase_events : List IncreaseEvent
  open_increase_events : List IncreaseEvent
  name_increase_totals : String → ℚ
  total_increase : ℚ

/-- The initial accumulators of `build_report`. -/
def init_report : Report :=
  ⟨fun _ => none, 0, 0, fun _ => 0, fun _ => 0, fun _ => 0, fun _ => 0, [], [], fun _ => 0, 0⟩

/-- `counter[k] += 1`. -/
def bump (f : String → Nat) (k : String) : String → Nat :=
  fun x => if x = k then f k + 1 else f x

/-- `counter[k] += delta`. -/
def bump_total (f : String → ℚ) (k : String) (delta : ℚ) : String → ℚ :=
  fun x => if x = k then f k + delta else f x

/-- `records[k] = entry`. -/
def entry_set (f : String → Option Entry) (k : String) (e : Entry) : String → Option Entry :=
  fun x => if x = k then some e else f x

/-- `is_new_best = prev_weight is None or row.weight > prev_weight`. -/
def is_new_best (prev : Option Entry) (w : ℚ) : Bool :=
  match prev with
  | none => true
  | some e => decide (e.weight < w)

/-- The body of the per-row loop of `build_report`, one attempt against the
current state. `previous_date=prev_date or current_date` in the source always
takes `prev_date` in the improving branch (a `date` object is always truthy),
so the event carries the previous entry's date. -/
def report_row (target_year year month day : Nat) (file : String) (st : Report)
    (row : ParsedRow) : Report :=
  let current_date := make_date year month day
  let current_has_exact_date : Bool := (month != 0) && (day != 0)
  let prev := st.records row.key
  let nb := is_new_best prev row.weight
  let st1 :=
    if nb && (year == target_year) then
      let stc := { st with
        total_broken := st.total_broken + 1,
        location_counts := bump st.location_counts row.location,
        name_counts := bump st.name_counts row.name,
        name_counts_tested :=
          if is_tested row.key then bump st.name_counts_tested row.name
          else st.name_counts_tested,
        name_counts_untested :=
          if is_tested row.key then st.name_counts_untested
          else bump st.name_counts_untested row.name }
      match prev with
      | none => { stc with new_records := stc.new_records + 1 }
      | some e =>
        let delta := row.weight - e.weight
        let ev : IncreaseEvent := ⟨row.name, row.key, row.location, e.weight, row.weight, delta,
          e.date, current_date, e.exact_date, e.source, file⟩
        let std := { stc with
          total_increase := stc.total_increase + delta,
          name_increase_totals := bump_total stc.name_increase_totals row.name delta,
          increase_events := stc.increase_events ++ [ev] }
        if is_open_division row.key then
          { std with open_increase_events := std.open_increase_events ++ [ev] }
        else std
    else st
  if nb then
    { st1 with records :=
        entry_set st1.records row.key ⟨row.weight, current_date, file, current_has_exact_date⟩ }
  else st1

/-- One file of the `build_report` loop. -/
def report_file (pf : String → Option ℚ) (target_year : Nat) (st : Report) (f : SourceFile) :
    Report :=
  (read_rows pf f.rows).foldl
    (report_row target_year f.date.1 f.date.2.1 f.date.2.2 f.name) st

/-- `wrapped.sorted_event_files` (textually the same function as
`checker.sorted_record_files`, with the rows kept attached). -/
def sorted_event_files (root : List (String × List (List String))) : List SourceFile :=
  sorted_source_files root

/-- `wrapped.build_report`. -/
def build_report (pf : String → Option ℚ) (target_year : Nat)
    (root : List (String × List (List String))) : Report :=
  (sorted_event_files root).foldl (report_file pf target_year) init_report

/-- The `age_events` list of `format_oldest_broken`: every improvement event
paired with `(current_date - previous_date).days` (the guard
`if event.previous_date:` is always true — a `date` object is truthy). -/
def age_events (events : List IncreaseEvent) : List (Int × IncreaseEvent) :=
  events.map (fun e => (days_between e.previous_date e.current_date, e))

/-- The comparison realising `sorted(..., key=(age_days, new, name),
reverse=True)`: `a` before `b` iff `a`'s key is lexicographically at least
`b`'s. -/
def oldest_ge (a b : Int × IncreaseEvent) : Bool :=
  decide (b.1 < a.1) ||
    (decide (b.1 = a.1) &&
      (decide (b.2.new < a.2.new) ||
        (decide (b.2.new = a.2.new) && str_le b.2.name a.2.name)))

/-- The `sorted_events` ranking of `format_oldest_broken`: descending by
day-count, ties by descending new weight, then descending name (Python's
stable `sorted(..., reverse=True)`, modelled by the stable insertion sort on
the reversed comparison). -/
def sorted_age_events (events : List IncreaseEvent) : List (Int × IncreaseEvent) :=
  (age_events events).insertionSort (fun a b => oldest_ge a b = true)

/-- The displayed age fragment of one `format_oldest_broken` line: the
day-count when the previous entry had day precision, else whole calendar
years. -/
def age_text (d : Int) (e : IncreaseEvent) : String :=
  if e.previous_has_exact_date then toString d ++ " days"
  else toString ((e.current_date.year : Int) - (e.previous_date.year : Int)) ++ " years"

/-- The displayed `format_oldest_broken` ranking: the first ten entries, each
rendered through `age_text` (the other interpolated fields of the line are
independent of the claimwise-relevant age logic). -/
def format_oldest_broken (events : List IncreaseEvent) : List String :=
  ((sorted_age_events events).take 10).map (fun p => age_text p.1 p.2)

end Wrapped

section BestFold

variable {γ : Type}

/-- The shared per-attempt ledger update of both replay loops: create the
entry when the key is unseen, replace it when the new weight strictly exceeds
the stored one, keep it otherwise. -/
def best_step (get : γ → ℚ) (led : String → Option γ) (kv : String × γ) : String → Option γ :=
  match led kv.1 with
  | none => fun k => if k = kv.1 then some kv.2 else led k
  | some old =>
    if get kv.2 ≤ get old then led
    else fun k => if k = kv.1 then some kv.2 else led k

/-- The ledger after replaying a list of (key, payload) attempts. -/
def best_fold (get : γ → ℚ) (led : String → Option γ) (l : List (String × γ)) :
    String → Option γ :=
  l.foldl (best_step get) led

/-- The weights of all attempts for one key, in replay order. -/
def key_weights (get : γ → ℚ) (key : String) (l : List (String × γ)) : List ℚ :=
  (l.filter (fun p => p.1 = key)).map (fun p => get p.2)

/-- The ledger invariant: a key is absent exactly when unseen, and a present
entry carries the maximum weight seen for its key. -/
def BestInv (get : γ → ℚ) (led : String → Option γ) (l : List (String × γ)) : Prop :=
  ∀ key, (led key = none ∧ key_weights get key l = []) ∨
    (∃ v, led key = some v ∧ get v ∈ key_weights get key l ∧
      ∀ x ∈ key_weights get key l, x ≤ get v)

namespace Checker

/-- All attempts of a file list, as (key, (weight, source-file)) pairs in
replay order. -/
def chk_pairs (pf : String → Option ℚ) (files : List SourceFile) :
    List (String × (ℚ × String)) :=
  files.flatMap (fun f => ((read_rows pf f.name f.rows).1).map (fun r => (r.key, (r.weight, f.name))))

end Checker

namespace Wrapped

/-- The ledger entry written for an attempt of a file dated
`(year, month, day)`. -/
def attempt_entry (year month day : Nat) (file : String) (row : ParsedRow) : Entry :=
  ⟨row.weight, make_date year month day, file, (month != 0) && (day != 0)⟩

/-- All attempts of a file list, as (key, ledger entry) pairs in replay
order. -/
def wr_pairs (pf : String → Option ℚ) (files : List SourceFile) : List (String × Entry) :=
  files.flatMap (fun f =>
    (read_rows pf f.rows).map
      (fun row => (row.key, attempt_entry f.date.1 f.date.2.1 f.date.2.2 f.name row)))

/-- The `records` dict after the `build_report` loop over a file list. -/
def wr_ledger (pf : String → Option ℚ) (target_year : Nat) (files : List SourceFile) :
    String → Option Entry :=
  (files.foldl (report_file pf target_year) init_report).records

end Wrapped

namespace Checker

/-- The warnings one attempt appends: an unrecognized-key warning when the
key is unknown, then a non-increasing warning when the key has an entry that
the attempt fails to beat. -/
def row_warnings (known : List String) (file : String) (led : Ledger) (r : Row) :
    List Warning :=
  (if r.key ∈ known then [] else [Warning.unrecognizedKey r.key file r.line r.name]) ++
    (match led r.key with
     | none => []
     | some (pw, ps) =>
       if r.weight ≤ pw then [Warning.nonIncreasing r.key file r.line r.weight pw ps] else [])

/-- True exactly on the invalid-weight warning constructor. -/
def is_invalid_weight : Warning → Bool
  | Warning.invalidWeight _ _ _ => true
  | _ => false

/-- The combinatorial legality rules of the specification, stated over the six
components of a key: sex with its sex-specific weight-class list; a division
from the bracket list, optionally with the `-D` suffix; a lift valid for the
event; equipment from the list, with `Unlimited` only for bench in the
bench-only event, no supportive knee gear on bench/deadlift, and no `Raw` on
squat/total. -/
def valid_key_rules (sex division event eqp weight lift : String) : Prop :=
  ((sex = "M" ∧ weight ∈ MALE_CLASSES) ∨ (sex = "F" ∧ weight ∈ FEMALE_CLASSES)) ∧
  (division ∈ DIVISIONS ∨ ∃ d ∈ DIVISIONS, division = d ++ "-D") ∧
  ((lift = "B" ∧ event = "B") ∨ (lift = "D" ∧ event = "D") ∨ (event = "SBD" ∧ lift ∈ LIFTS)) ∧
  eqp ∈ EQUIPMENT ∧
  (eqp = "Unlimited" → event = "B" ∧ lift = "B") ∧
  ((lift = "B" ∨ lift = "D") → ¬ (eqp = "Bare" ∨ eqp = "Sleeves" ∨ eqp = "Wraps")) ∧
  ((lift = "S" ∨ lift = "SBD") → eqp ≠ "Raw")

end Checker

/-- A concrete stand-in for the Python `float(...)` collaborator, used by the
closed (witness and counterexample) runs: the handful of weight literals the
fixtures use parse to the corresponding rationals, everything else fails. -/
def float_samples : String → Option ℚ := fun s =>
  if s = "90" then some 90
  else if s = "100" then some 100
  else if s = "200" then some 200
  else if s = "210" then some 210
  else none

/-- The two-file scenario of the specification: a 200 kg record in `2023.csv`
beaten by 210 kg in `2024.csv` (with a location in column 4). -/
def scenario_root : List (String × List (List String)) :=
  [("2023.csv", [["M|Open|SBD|Raw|90|S", "200", "Alice"]]),
    ("2024.csv", [["M|Open|SBD|Raw|90|S", "210", "Alice", "", "CityGym"]])]

end BestFold

theorem chars_le_cons_iff {x y : Char} {xs ys : List Char} :
    chars_le (x :: xs) (y :: ys) = true ↔ x < y ∨ (x = y ∧ chars_le xs ys = true) := by
  rcases lt_trichotomy x y with h | h | h
  · simp [chars_le, h]
  · subst h; simp [chars_le, lt_irrefl]
  · simp [chars_le, h, asymm h, ne_of_gt h]

theorem chars_le_total (a b : List Char) : chars_le a b = true ∨ chars_le b a = true := by
  induction a generalizing b with
  | nil => left; rfl
  | cons x xs ih =>
    cases b with
    | nil => right; rfl
    | cons y ys =>
      rcases lt_trichotomy x y with h | h | h
      · left; exact chars_le_cons_iff.mpr (Or.inl h)
      · subst h
        rcases ih ys with h2 | h2
        · left; exact chars_le_cons_iff.mpr (Or.inr ⟨rfl, h2⟩)
        · right; exact chars_le_cons_iff.mpr (Or.inr ⟨rfl, h2⟩)
      · right; exact chars_le_cons_iff.mpr (Or.inl h)

theorem chars_le_antisymm : ∀ {a b : List Char},
    chars_le a b = true → chars_le b a = true → a = b
  | [], [], _, _ => rfl
  | [], _ :: _, _, h2 => by simp [chars_le] at h2
  | _ :: _, [], h1, _ => by simp [chars_le] at h1
  | x :: xs, y :: ys, h1, h2 => by
    rcases chars_le_cons_iff.mp h1 with h | ⟨rfl, hx⟩
    · rcases chars_le_cons_iff.mp h2 with h2a | ⟨h2a, _⟩
      · exact absurd h2a (asymm h)
      · exact absurd h2a.symm (ne_of_lt h)
    · rcases chars_le_cons_iff.mp h2 with h2a | ⟨_, hy⟩
      · exact absurd h2a (lt_irrefl x)
      · rw [chars_le_antisymm hx hy]

theorem chars_le_trans : ∀ {a b c : List Char},
    chars_le a b = true → chars_le b c = true → chars_le a c = true
  | [], _, _, _, _ => rfl
  | _ :: _, [], _, h1, _ => by simp [chars_le] at h1
  | _ :: _, _ :: _, [], _, h2 => by simp [chars_le] at h2
  | x :: xs, y :: ys, z :: zs, h1, h2 => by
    rcases chars_le_cons_iff.mp h1 with h | ⟨rfl, hx⟩
    · rcases chars_le_cons_iff.mp h2 with h2a | ⟨rfl, _⟩
      · exact chars_le_cons_iff.mpr (Or.inl (lt_trans h h2a))
      · exact chars_le_cons_iff.mpr (Or.inl h)
    · rcases chars_le_cons_iff.mp h2 with h2a | ⟨rfl, hy⟩
      · exact chars_le_cons_iff.mpr (Or.inl h2a)
      · exact chars_le_cons_iff.mpr (Or.inr ⟨rfl, chars_le_trans hx hy⟩)

theorem str_le_total (a b : String) : str_le a b = true ∨ str_le b a = true :=
  chars_le_total a.data b.data

theorem str_le_trans {a b c : String} (h1 : str_le a b = true) (h2 : str_le b c = true) :
    str_le a c = true :=
  chars_le_trans h1 h2

theorem str_le_antisymm {a b : String} (h1 : str_le a b = true) (h2 : str_le b a = true) :
    a = b :=
  String.ext (chars_le_antisymm h1 h2)

theorem date_name_le_total (a b : (Nat × Nat × Nat) × String) :
    date_name_le a b = true ∨ date_name_le b a = true := by
  obtain ⟨⟨y1, m1, d1⟩, n1⟩ := a
  obtain ⟨⟨y2, m2, d2⟩, n2⟩ := b
  simp only [date_name_le, Bool.or_eq_true, Bool.and_eq_true, decide_eq_true_eq]
  rcases Nat.lt_trichotomy y1 y2 with h | rfl | h
  · exact Or.inl (Or.inl h)
  · rcases Nat.lt_trichotomy m1 m2 with h | rfl | h
    · exact Or.inl (Or.inr ⟨rfl, Or.inl h⟩)
    · rcases Nat.lt_trichotomy d1 d2 with h | rfl | h
      · exact Or.inl (Or.inr ⟨rfl, Or.inr ⟨rfl, Or.inl h⟩⟩)
      · rcases str_le_total n1 n2 with h | h
        · exact Or.inl (Or.inr ⟨rfl, Or.inr ⟨rfl, Or.inr ⟨rfl, h⟩⟩⟩)
        · exact Or.inr (Or.inr ⟨rfl, Or.inr ⟨rfl, Or.inr ⟨rfl, h⟩⟩⟩)
      · exact Or.inr (Or.inr ⟨rfl, Or.inr ⟨rfl, Or.inl h⟩⟩)
    · exact Or.inr (Or.inr ⟨rfl, Or.inl h⟩)
  · exact Or.inr (Or.inl h)

theorem date_name_le_trans {a b c : (Nat × Nat × Nat) × String}
    (h1 : date_name_le a b = true) (h2 : date_name_le b c = true) :
    date_name_le a c = true := by
  obtain ⟨⟨y1, m1, d1⟩, n1⟩ := a
  obtain ⟨⟨y2, m2, d2⟩, n2⟩ := b
  obtain ⟨⟨y3, m3, d3⟩, n3⟩ := c
  simp only [date_name_le, Bool.or_eq_true, Bool.and_eq_true, decide_eq_true_eq] at h1 h2 ⊢
  rcases h1 with h1 | ⟨rfl, h1⟩
  · rcases h2 with h2 | ⟨rfl, _⟩
    · exact Or.inl (Nat.lt_trans h1 h2)
    · exact Or.inl h1
  · rcases h2 with h2 | ⟨rfl, h2⟩
    · exact Or.inl h2
    · refine Or.inr ⟨rfl, ?_⟩
      rcases h1 with h1 | ⟨rfl, h1⟩
      · rcases h2 with h2 | ⟨rfl, _⟩
        · exact Or.inl (Nat.lt_trans h1 h2)
        · exact Or.inl h1
      · rcases h2 with h2 | ⟨rfl, h2⟩
        · exact Or.inl h2
        · refine Or.inr ⟨rfl, ?_⟩
          rcases h1 with h1 | ⟨rfl, h1⟩
          · rcases h2 with h2 | ⟨rfl, _⟩
            · exact Or.inl (Nat.lt_trans h1 h2)
            · exact Or.inl h1
          · rcases h2 with h2 | ⟨rfl, h2⟩
            · exact Or.inl h2
            · exact Or.inr ⟨rfl, str_le_trans h1 h2⟩

theorem date_name_le_antisymm {a b : (Nat × Nat × Nat) × String}
    (h1 : date_name_le a b = true) (h2 : date_name_le b a = true) : a = b := by
  obtain ⟨⟨y1, m1, d1⟩, n1⟩ := a
  obtain ⟨⟨y2, m2, d2⟩, n2⟩ := b
  simp only [date_name_le, Bool.or_eq_true, Bool.and_eq_true, decide_eq_true_eq] at h1 h2
  rcases h1 with h1 | ⟨rfl, h1⟩
  · rcases h2 with h2 | ⟨h2, _⟩
    · exact absurd h2 (Nat.lt_asymm h1)
    · exact absurd h2 (Nat.ne_of_gt h1)
  · rcases h2 with h2 | ⟨_, h2⟩
    · exact absurd h2 (lt_irrefl _)
    · rcases h1 with h1 | ⟨rfl, h1⟩
      · rcases h2 with h2 | ⟨h2, _⟩
        · exact absurd h2 (Nat.lt_asymm h1)
        · exact absurd h2 (Nat.ne_of_gt h1)
      · rcases h2 with h2 | ⟨_, h2⟩
        · exact absurd h2 (lt_irrefl _)
        · rcases h1 with h1 | ⟨rfl, h1⟩
          · rcases h2 with h2 | ⟨h2, _⟩
            · exact absurd h2 (Nat.lt_asymm h1)
            · exact absurd h2 (Nat.ne_of_gt h1)
          · rcases h2 with h2 | ⟨_, h2⟩
            · exact absurd h2 (lt_irrefl _)
            · rw [str_le_antisymm h1 h2]

section BestFold

variable {γ : Type}

theorem key_weights_append (get : γ → ℚ) (key : String) (l1 l2 : List (String × γ)) :
    key_weights get key (l1 ++ l2) = key_weights get key l1 ++ key_weights get key l2 := by
  simp [key_weights, List.filter_append]

theorem key_weights_singleton (get : γ → ℚ) (key : String) (p : String × γ) :
    key_weights get key [p] = if p.1 = key then [get p.2] else [] := by
  by_cases h : p.1 = key <;> simp [key_weights, h]

theorem best_step_other (get : γ → ℚ) (led : String → Option γ) (p : String × γ)
    {key : String} (h : key ≠ p.1) : best_step get led p key = led key := by
  unfold best_step
  cases led p.1 with
  | none => simp [h]
  | some old =>
    by_cases hle : get p.2 ≤ get old <;> simp [hle, h]

theorem best_step_inv (get : γ → ℚ) {led : String → Option γ} {l : List (String × γ)}
    (h : BestInv get led l) (p : String × γ) :
    BestInv get (best_step get led p) (l ++ [p]) := by
  intro key
  rw [key_weights_append, key_weights_singleton]
  by_cases hk : p.1 = key
  · subst hk
    rcases h p.1 with ⟨hnone, hemp⟩ | ⟨v, hv, hmem, hmax⟩
    · refine Or.inr ⟨p.2, ?_, ?_, ?_⟩
      · simp [best_step, hnone]
      · simp [hemp]
      · intro x hx
        rw [hemp] at hx
        simp at hx
        simp [hx]
    · by_cases hle : get p.2 ≤ get v
      · refine Or.inr ⟨v, ?_, ?_, ?_⟩
        · simp [best_step, hv, hle]
        · simp [List.mem_append]; exact Or.inl hmem
        · intro x hx
          rcases List.mem_append.mp hx with hx | hx
          · exact hmax x hx
          · simp at hx; simp [hx, hle]
      · refine Or.inr ⟨p.2, ?_, ?_, ?_⟩
        · simp [best_step, hv, hle]
        · simp [List.mem_append]
        · intro x hx
          rcases List.mem_append.mp hx with hx | hx
          · exact le_trans (hmax x hx) (le_of_not_le hle)
          · simp at hx; simp [hx]
  · rw [best_step_other get led p (fun he => hk he.symm)]
    simp only [if_neg hk, List.append_nil]
    exact h key

theorem best_fold_inv (get : γ → ℚ) {led : String → Option γ} {l0 : List (String × γ)}
    (h : BestInv get led l0) (l : List (String × γ)) :
    BestInv get (best_fold get led l) (l0 ++ l) := by
  induction l generalizing led l0 with
  | nil => simpa [best_fold] using h
  | cons p rest ih =>
    have step := best_step_inv get h p
    have h2 := ih step
    have hfold : best_fold get led (p :: rest) = best_fold get (best_step get led p) rest := by
      simp [best_fold]
    rw [List.append_cons, hfold]
    exact h2

theorem best_fold_max (get : γ → ℚ) (l : List (String × γ)) :
    BestInv get (best_fold get (fun _ => none) l) l := by
  have h0 : BestInv get (fun _ => none) ([] : List (String × γ)) := by
    intro key; exact Or.inl ⟨rfl, rfl⟩
  simpa using best_fold_inv get h0 l

theorem key_weights_ne_nil (get : γ → ℚ) {key : String} {l : List (String × γ)}
    (h : key ∈ l.map Prod.fst) : key_weights get key l ≠ [] := by
  rcases List.mem_map.mp h with ⟨p, hp, hkey⟩
  have : get p.2 ∈ key_weights get key l := by
    simp only [key_weights, List.mem_map]
    exact ⟨p, List.mem_filter.mpr ⟨hp, by simp [hkey]⟩, rfl⟩
  intro hnil
  rw [hnil] at this
  exact List.not_mem_nil _ this

namespace Checker

/-- The ledger component of one `check_row` step is exactly the generic
strict-max step with payload `(weight, file)`. -/
theorem check_row_snd (known : List String) (file : String) (st : List Warning × Ledger)
    (r : Row) :
    (check_row known file st r).2 = best_step Prod.fst st.2 (r.key, (r.weight, file)) := by
  unfold check_row best_step ledger_set
  cases h : st.2 r.key with
  | none => simp [h]
  | some v =>
    obtain ⟨pw, ps⟩ := v
    by_cases hle : r.weight ≤ pw <;> simp [h, hle]

/-- The ledger component of one `check_file` step. -/
theorem check_file_snd (pf : String → Option ℚ) (known : List String)
    (st : List Warning × Ledger) (f : SourceFile) :
    (check_file pf known st f).2 =
      best_fold Prod.fst st.2
        (((read_rows pf f.name f.rows).1).map (fun r => (r.key, (r.weight, f.name)))) := by
  unfold check_file best_fold
  generalize (read_rows pf f.name f.rows).1 = rows
  induction rows generalizing st with
  | nil => rfl
  | cons r rest ih =>
    simp only [List.foldl_cons, List.map_cons]
    rw [ih (check_row known f.name st r), check_row_snd]

/-- The `records` dict built by the `check_files` loop is the generic
strict-max fold over all attempts. -/
theorem check_ledger_eq (pf : String → Option ℚ) (known : List String)
    (files : List SourceFile) :
    check_ledger pf known files = best_fold Prod.fst (fun _ => none) (chk_pairs pf files) := by
  suffices h : ∀ st : List Warning × Ledger,
      (files.foldl (check_file pf known) st).2 = best_fold Prod.fst st.2 (chk_pairs pf files) by
    exact h ([], fun _ => none)
  induction files with
  | nil => intro st; rfl
  | cons f rest ih =>
    intro st
    simp only [List.foldl_cons, chk_pairs, List.flatMap_cons]
    rw [ih (check_file pf known st f), check_file_snd]
    unfold best_fold
    rw [List.foldl_append]
    rfl

end Checker

namespace Wrapped

/-- The `records` component of one `report_row` step is exactly the generic
strict-max step; none of the analytics branches touch `records`. -/
theorem report_row_records (target_year year month day : Nat) (file : String) (st : Report)
    (row : ParsedRow) :
    (report_row target_year year month day file st row).records =
      best_step Entry.weight st.records (row.key, attempt_entry year month day file row) := by
  unfold report_row best_step entry_set attempt_entry is_new_best
  cases h : st.records row.key with
  | none =>
    simp only [h]
    by_cases hy : (year == target_year) = true <;> simp [hy]
  | some e =>
    simp only [h]
    by_cases hlt : e.weight < row.weight
    · have hnle : ¬ row.weight ≤ e.weight := not_le.mpr hlt
      by_cases hy : (year == target_year) = true
      · by_cases ho : is_open_division row.key = true <;> simp [hlt, hy, hnle, ho]
      · simp [hlt, hy, hnle]
    · have hle : row.weight ≤ e.weight := not_lt.mp hlt
      simp [hlt, hle]

/-- The `records` component of one `report_file` step. -/
theorem report_file_records (pf : String → Option ℚ) (target_year : Nat) (st : Report)
    (f : SourceFile) :
    (report_file pf target_year st f).records =
      best_fold Entry.weight st.records
        ((read_rows pf f.rows).map
          (fun row => (row.key, attempt_entry f.date.1 f.date.2.1 f.date.2.2 f.name row))) := by
  unfold report_file best_fold
  generalize read_rows pf f.rows = rows
  induction rows generalizing st with
  | nil => rfl
  | cons row rest ih =>
    simp only [List.foldl_cons, List.map_cons]
    rw [ih (report_row target_year f.date.1 f.date.2.1 f.date.2.2 f.name st row),
      report_row_records]

/-- The `records` dict built by the `build_report` loop is the generic
strict-max fold over all attempts. -/
theorem wr_ledger_eq (pf : String → Option ℚ) (target_year : Nat) (files : List SourceFile) :
    wr_ledger pf target_year files =
      best_fold Entry.weight (fun _ => none) (wr_pairs pf files) := by
  suffices h : ∀ st : Report,
      (files.foldl (report_file pf target_year) st).records =
        best_fold Entry.weight st.records (wr_pairs pf files) by
    exact h init_report
  induction files with
  | nil => intro st; rfl
  | cons f rest ih =>
    intro st
    simp only [List.foldl_cons, wr_pairs, List.flatMap_cons]
    rw [ih (report_file pf target_year st f), report_file_records]
    unfold best_fold
    rw [List.foldl_append]
    rfl

/-- An attempt that is not a new best leaves the whole report state — every
counter, every event list and the ledger — untouched. -/
theorem report_row_skip (target_year year month day : Nat) (file : String) (st : Report)
    (row : ParsedRow) (h : is_new_best (st.records row.key) row.weight = false) :
    report_row target_year year month day file st row = st := by
  simp [report_row, h]

/-- An attempt that does not qualify for analytics (not a new best, or not in
the target year) changes none of the analytics accumulators. -/
theorem report_row_analytics_frame (target_year year month day : Nat) (file : String)
    (st : Report) (row : ParsedRow)
    (h : (is_new_best (st.records row.key) row.weight && (year == target_year)) = false) :
    (report_row target_year year month day file st row).total_broken = st.total_broken ∧
    (report_row target_year year month day file st row).new_records = st.new_records ∧
    (report_row target_year year month day file st row).location_counts = st.location_counts ∧
    (report_row target_year year month day file st row).name_counts = st.name_counts ∧
    (report_row target_year year month day file st row).name_counts_untested
      = st.name_counts_untested ∧
    (report_row target_year year month day file st row).name_counts_tested
      = st.name_counts_tested ∧
    (report_row target_year year month day file st row).increase_events = st.increase_events ∧
    (report_row target_year year month day file st row).open_increase_events
      = st.open_increase_events ∧
    (report_row target_year year month day file st row).name_increase_totals
      = st.name_increase_totals ∧
    (report_row target_year year month day file st row).total_increase = st.total_increase := by
  cases hnb : is_new_best (st.records row.key) row.weight with
  | false => simp [report_row, hnb]
  | true =>
    have hy : (year == target_year) = false := by
      cases hy2 : (year == target_year) with
      | false => rfl
      | true => rw [hnb, hy2] at h; exact absurd h (by simp)
    simp [report_row, hnb, hy]

/-- A new best (in any year) rewrites the ledger entry for its key to the
attempt's weight, date, source file and date precision. -/
theorem report_row_records_newbest (target_year year month day : Nat) (file : String)
    (st : Report) (row : ParsedRow)
    (h : is_new_best (st.records row.key) row.weight = true) :
    (report_row target_year year month day file st row).records =
      entry_set st.records row.key (attempt_entry year month day file row) := by
  rw [report_row_records]
  unfold best_step
  cases hrec : st.records row.key with
  | none =>
    simp only [hrec]
    rfl
  | some e =>
    have hlt : e.weight < row.weight := by
      unfold is_new_best at h
      rw [hrec] at h
      exact of_decide_eq_true h
    simp only [hrec, attempt_entry, not_le.mpr hlt, if_neg, if_false]
    rfl

/-- A qualifying attempt (new best, target year) is counted: records broken,
location and lifter counters, and the tested/untested split by `is_tested`. -/
theorem report_row_counts (target_year year month day : Nat) (file : String)
    (st : Report) (row : ParsedRow)
    (hnb : is_new_best (st.records row.key) row.weight = true)
    (hy : (year == target_year) = true) :
    (report_row target_year year month day file st row).total_broken = st.total_broken + 1 ∧
    (report_row target_year year month day file st row).location_counts
      = bump st.location_counts row.location ∧
    (report_row target_year year month day file st row).name_counts
      = bump st.name_counts row.name ∧
    (report_row target_year year month day file st row).name_counts_tested
      = (if is_tested row.key then bump st.name_counts_tested row.name
          else st.name_counts_tested) ∧
    (report_row target_year year month day file st row).name_counts_untested
      = (if is_tested row.key then st.name_counts_untested
          else bump st.name_counts_untested row.name) := by
  cases hrec : st.records row.key with
  | none => simp [report_row, is_new_best, hrec, hy]
  | some e =>
    have hlt : e.weight < row.weight := by
      unfold is_new_best at hnb
      rw [hrec] at hnb
      exact of_decide_eq_true hnb
    by_cases ho : is_open_division row.key = true <;>
      simp [report_row, is_new_best, hrec, hy, hlt, ho]

/-- A qualifying improvement (the key already had an entry) appends exactly
one `IncreaseEvent`, built from the previous entry and the attempt, and adds
its delta to the kg totals; `new_records` is not touched. -/
theorem report_row_improvement (target_year year month day : Nat) (file : String)
    (st : Report) (row : ParsedRow) (e : Entry)
    (hrec : st.records row.key = some e)
    (hlt : e.weight < row.weight)
    (hy : (year == target_year) = true) :
    (report_row target_year year month day file st row).increase_events =
      st.increase_events ++
        [⟨row.name, row.key, row.location, e.weight, row.weight, row.weight - e.weight,
          e.date, make_date year month day, e.exact_date, e.source, file⟩] ∧
    (report_row target_year year month day file st row).open_increase_events =
      (if is_open_division row.key then
        st.open_increase_events ++
          [⟨row.name, row.key, row.location, e.weight, row.weight, row.weight - e.weight,
            e.date, make_date year month day, e.exact_date, e.source, file⟩]
        else st.open_increase_events) ∧
    (report_row target_year year month day file st row).total_increase =
      st.total_increase + (row.weight - e.weight) ∧
    (report_row target_year year month day file st row).name_increase_totals =
      bump_total st.name_increase_totals row.name (row.weight - e.weight) ∧
    (report_row target_year year month day file st row).new_records = st.new_records := by
  by_cases ho : is_open_division row.key = true <;>
    simp [report_row, is_new_best, hrec, hy, hlt, ho]

/-- A qualifying brand-new record (no previous entry) increments
`new_records` and appends no improvement event. -/
theorem report_row_fresh (target_year year month day : Nat) (file : String)
    (st : Report) (row : ParsedRow)
    (hrec : st.records row.key = none)
    (hy : (year == target_year) = true) :
    (report_row target_year year month day file st row).new_records = st.new_records + 1 ∧
    (report_row target_year year month day file st row).increase_events = st.increase_events ∧
    (report_row target_year year month day file st row).open_increase_events
      = st.open_increase_events ∧
    (report_row target_year year month day file st row).total_increase = st.total_increase := by
  simp [report_row, is_new_best, hrec, hy]

/-- A key outside the Open division never contributes to the Open-division
event list. -/
theorem report_row_open_frame (target_year year month day : Nat) (file : String)
    (st : Report) (row : ParsedRow) (ho : is_open_division row.key = false) :
    (report_row target_year year month day file st row).open_increase_events
      = st.open_increase_events := by
  cases hnb : is_new_best (st.records row.key) row.weight with
  | false => simp [report_row, hnb]
  | true =>
    cases hy : (year == target_year) with
    | false => simp [report_row, hnb, hy]
    | true =>
      cases hrec : st.records row.key with
      | none => simp [report_row, is_new_best, hrec, hy]
      | some e =>
        have hlt : e.weight < row.weight := by
          unfold is_new_best at hnb
          rw [hrec] at hnb
          exact of_decide_eq_true hnb
        simp [report_row, is_new_best, hrec, hy, hlt, ho]

end Wrapped

namespace Checker

/-- One `check_row` step only appends: the accumulated warnings keep their
order and grow by exactly this row's warnings. -/
theorem check_row_fst (known : List String) (file : String) (st : List Warning × Ledger)
    (r : Row) :
    (check_row known file st r).1 = st.1 ++ row_warnings known file st.2 r := by
  unfold check_row row_warnings
  cases h : st.2 r.key with
  | none => by_cases hm : r.key ∈ known <;> simp [hm]
  | some v =>
    obtain ⟨pw, ps⟩ := v
    by_cases hm : r.key ∈ known <;> by_cases hle : r.weight ≤ pw <;> simp [hm, hle]

theorem check_row_shift (known : List String) (file : String) (ws : List Warning)
    (led : Ledger) (r : Row) :
    check_row known file (ws, led) r =
      (ws ++ row_warnings known file led r, (check_row known file ([], led) r).2) := by
  have h1 := check_row_fst known file (ws, led) r
  have h2 := check_row_snd known file (ws, led) r
  have h3 := check_row_snd known file ([], led) r
  ext1
  · exact h1
  · rw [h2, h3]

/-- Warnings accumulated over one file's rows sit after whatever was
accumulated before, in row order. -/
theorem rows_foldl_shift (known : List String) (file : String) :
    ∀ (rows : List Row) (ws : List Warning) (led : Ledger),
      (rows.foldl (check_row known file) (ws, led)).1 =
        ws ++ (rows.foldl (check_row known file) ([], led)).1 := by
  intro rows
  induction rows with
  | nil => intro ws led; simp
  | cons r rest ih =>
    intro ws led
    simp only [List.foldl_cons]
    rw [check_row_shift known file ws led r, ih,
      check_row_shift known file [] led r]
    simp only [List.nil_append]
    rw [ih (row_warnings known file led r) ((check_row known file ([], led) r).2)]
    simp [List.append_assoc]

/-- Warnings accumulated by one whole file, starting from a given ledger. -/
theorem check_file_shift (pf : String → Option ℚ) (known : List String)
    (ws : List Warning) (led : Ledger) (f : SourceFile) :
    (check_file pf known (ws, led) f).1 =
      ws ++ (check_file pf known ([], led) f).1 := by
  unfold check_file
  exact rows_foldl_shift known f.name ((read_rows pf f.name f.rows).1) ws led

theorem row_warnings_not_invalid (known : List String) (file : String) (led : Ledger)
    (r : Row) : ∀ w ∈ row_warnings known file led r, is_invalid_weight w = false := by
  intro w hw
  unfold row_warnings at hw
  rcases List.mem_append.mp hw with hw | hw
  · by_cases hm : r.key ∈ known
    · simp [hm] at hw
    · simp [hm] at hw
      subst hw; rfl
  · cases h : led r.key with
    | none => rw [h] at hw; simp at hw
    | some v =>
      obtain ⟨pw, ps⟩ := v
      rw [h] at hw
      by_cases hle : r.weight ≤ pw
      · simp [hle] at hw
        subst hw; rfl
      · simp [hle] at hw

theorem rows_foldl_not_invalid (known : List String) (file : String) :
    ∀ (rows : List Row) (ws : List Warning) (led : Ledger) (w : Warning),
      w ∈ (rows.foldl (check_row known file) (ws, led)).1 →
      w ∈ ws ∨ is_invalid_weight w = false := by
  intro rows
  induction rows with
  | nil => intro ws led w hw; exact Or.inl hw
  | cons r rest ih =>
    intro ws led w hw
    simp only [List.foldl_cons] at hw
    rw [check_row_shift known file ws led r] at hw
    rcases ih _ _ w hw with hw2 | hw2
    · rcases List.mem_append.mp hw2 with hw3 | hw3
      · exact Or.inl hw3
      · exact Or.inr (row_warnings_not_invalid known file led r w hw3)
    · exact Or.inr hw2

theorem files_foldl_not_invalid (pf : String → Option ℚ) (known : List String) :
    ∀ (files : List SourceFile) (ws : List Warning) (led : Ledger) (w : Warning),
      w ∈ (files.foldl (check_file pf known) (ws, led)).1 →
      w ∈ ws ∨ is_invalid_weight w = false := by
  intro files
  induction files with
  | nil => intro ws led w hw; exact Or.inl hw
  | cons f rest ih =>
    intro ws led w hw
    simp only [List.foldl_cons] at hw
    rcases ih (check_file pf known (ws, led) f).1 (check_file pf known (ws, led) f).2 w hw
      with hw2 | hw2
    · rw [check_file_shift pf known ws led f] at hw2
      rcases List.mem_append.mp hw2 with hw3 | hw3
      · exact Or.inl hw3
      · rcases rows_foldl_not_invalid known f.name ((read_rows pf f.name f.rows).1) [] led w hw3
          with h | h
        · exact absurd h (List.not_mem_nil w)
        · exact Or.inr h
    · exact Or.inr hw2

/-- Splitting at the first separator is unambiguous when neither prefix
contains the separator. -/
theorem sep_split {a : List Char} : ∀ {b r1 r2 : List Char}, '|' ∉ a → '|' ∉ b →
    a ++ '|' :: r1 = b ++ '|' :: r2 → a = b ∧ r1 = r2 := by
  induction a with
  | nil =>
    intro b r1 r2 _ hb h
    cases b with
    | nil => exact ⟨rfl, by simpa using h⟩
    | cons c bs =>
      simp only [List.nil_append, List.cons_append, List.cons.injEq] at h
      obtain ⟨h1, _⟩ := h
      subst h1
      simp at hb
  | cons c as ih =>
    intro b r1 r2 ha hb h
    cases b with
    | nil =>
      simp only [List.cons_append, List.nil_append, List.cons.injEq] at h
      obtain ⟨h1, _⟩ := h
      subst h1
      simp at ha
    | cons c2 bs =>
      simp only [List.cons_append, List.cons.injEq] at h
      obtain ⟨h1, h2⟩ := h
      subst h1
      have ha2 : '|' ∉ as := fun hm => ha (List.mem_cons_of_mem _ hm)
      have hb2 : '|' ∉ bs := fun hm => hb (List.mem_cons_of_mem _ hm)
      obtain ⟨hab, hr⟩ := ih ha2 hb2 h2
      exact ⟨by rw [hab], hr⟩

theorem mkKey_data (s d e q w l : String) :
    (mkKey s d e q w l).data =
      s.data ++ '|' :: (d.data ++ '|' :: (e.data ++ '|' :: (q.data ++ '|' ::
        (w.data ++ '|' :: l.data)))) := by
  simp [mkKey, String.data_append]

/-- A key string determines its six components when the first five are
pipe-free (the sixth is the remainder after the fifth separator). -/
theorem mkKey_inj {s1 d1 e1 q1 w1 l1 s2 d2 e2 q2 w2 l2 : String}
    (hs1 : '|' ∉ s1.data) (hd1 : '|' ∉ d1.data) (he1 : '|' ∉ e1.data)
    (hq1 : '|' ∉ q1.data) (hw1 : '|' ∉ w1.data)
    (hs2 : '|' ∉ s2.data) (hd2 : '|' ∉ d2.data) (he2 : '|' ∉ e2.data)
    (hq2 : '|' ∉ q2.data) (hw2 : '|' ∉ w2.data)
    (h : mkKey s1 d1 e1 q1 w1 l1 = mkKey s2 d2 e2 q2 w2 l2) :
    s1 = s2 ∧ d1 = d2 ∧ e1 = e2 ∧ q1 = q2 ∧ w1 = w2 ∧ l1 = l2 := by
  have hdata := congrArg String.data h
  rw [mkKey_data, mkKey_data] at hdata
  obtain ⟨h1, hdata⟩ := sep_split hs1 hs2 hdata
  obtain ⟨h2, hdata⟩ := sep_split hd1 hd2 hdata
  obtain ⟨h3, hdata⟩ := sep_split he1 he2 hdata
  obtain ⟨h4, hdata⟩ := sep_split hq1 hq2 hdata
  obtain ⟨h5, hdata⟩ := sep_split hw1 hw2 hdata
  exact ⟨String.ext h1, String.ext h2, String.ext h3, String.ext h4,
    String.ext h5, String.ext hdata⟩

/-- Membership in the generated keyspace, phrased along the generator's own
loops and guards. -/
theorem mem_valid_keyset_gen (s : String) :
    s ∈ valid_keyset ↔
      ∃ sex ∈ SEXES, ∃ division ∈ divisions_add_tested, ∃ event ∈ EVENTS, ∃ lift ∈ LIFTS,
        ((lift = "B" ∧ event = "B") ∨ (lift = "D" ∧ event = "D") ∨ event = "SBD") ∧
        ∃ eqp ∈ EQUIPMENT,
          ¬ (eqp = "Unlimited" ∧ ¬ (event = "B" ∧ lift = "B")) ∧
          ¬ (((lift = "B" ∨ lift = "D") ∧ (eqp = "Bare" ∨ eqp = "Sleeves" ∨ eqp = "Wraps")) ∨
              ((lift = "S" ∨ lift = "SBD") ∧ eqp = "Raw")) ∧
          ∃ weight ∈ (if sex = "M" then MALE_CLASSES else FEMALE_CLASSES),
            s = mkKey sex division event eqp weight lift := by
  unfold valid_keyset
  simp only [List.mem_flatMap, List.mem_map, List.mem_ite_nil_left, not_not]
  constructor
  · rintro ⟨sex, hsex, division, hdiv, event, hev, lift, hlift, hmem⟩
    rcases hmem with ⟨hvl, eqp, heqp, hu, hb, weight, hwc, heq⟩
    exact ⟨sex, hsex, division, hdiv, event, hev, lift, hlift, hvl,
      eqp, heqp, hu, hb, weight, hwc, heq.symm⟩
  · rintro ⟨sex, hsex, division, hdiv, event, hev, lift, hlift, hvl,
      eqp, heqp, hu, hb, weight, hwc, heq⟩
    exact ⟨sex, hsex, division, hdiv, event, hev, lift, hlift,
      hvl, eqp, heqp, hu, hb, weight, hwc, heq.symm⟩

theorem sexes_pipe_free : ∀ x ∈ SEXES, '|' ∉ x.data := by decide

theorem divisions_tested_pipe_free : ∀ x ∈ divisions_add_tested, '|' ∉ x.data := by decide

theorem events_pipe_free : ∀ x ∈ EVENTS, '|' ∉ x.data := by decide

theorem equipment_pipe_free : ∀ x ∈ EQUIPMENT, '|' ∉ x.data := by decide

theorem classes_pipe_free : ∀ x ∈ MALE_CLASSES ++ FEMALE_CLASSES, '|' ∉ x.data := by decide

/-- A key built from pipe-free components is in the generated keyspace exactly
when the combinatorial rules hold for its components. -/
theorem mem_valid_keyset_iff (sex division event eqp weight lift : String)
    (hs : '|' ∉ sex.data) (hd : '|' ∉ division.data) (he : '|' ∉ event.data)
    (hq : '|' ∉ eqp.data) (hw : '|' ∉ weight.data) :
    mkKey sex division event eqp weight lift ∈ valid_keyset ↔
      valid_key_rules sex division event eqp weight lift := by
  constructor
  · intro hmem
    rcases (mem_valid_keyset_gen _).mp hmem with
      ⟨sex2, hsex2, division2, hdiv2, event2, hev2, lift2, hlift2, hvl, eqp2, heqp2,
        hu, hb, weight2, hwc2, heq⟩
    have hs2 := sexes_pipe_free sex2 hsex2
    have hd2 := divisions_tested_pipe_free division2 hdiv2
    have he2 := events_pipe_free event2 hev2
    have hq2 := equipment_pipe_free eqp2 heqp2
    have hw2 : '|' ∉ weight2.data := by
      by_cases hsm : sex2 = "M"
      · rw [if_pos hsm] at hwc2
        exact classes_pipe_free weight2 (List.mem_append.mpr (Or.inl hwc2))
      · rw [if_neg hsm] at hwc2
        exact classes_pipe_free weight2 (List.mem_append.mpr (Or.inr hwc2))
    obtain ⟨h1, h2, h3, h4, h5, h6⟩ :=
      mkKey_inj hs hd he hq hw hs2 hd2 he2 hq2 hw2 heq
    subst h1; subst h2; subst h3; subst h4; subst h5; subst h6
    refine ⟨?_, ?_, ?_, heqp2, ?_, ?_, ?_⟩
    · simp only [SEXES, List.mem_cons, List.not_mem_nil, or_false] at hsex2
      rcases hsex2 with rfl | rfl
      · simp only [if_pos rfl] at hwc2
        exact Or.inl ⟨rfl, hwc2⟩
      · rw [if_neg (by decide)] at hwc2
        exact Or.inr ⟨rfl, hwc2⟩
    · simp only [divisions_add_tested, List.mem_append, List.mem_map] at hdiv2
      rcases hdiv2 with hmem2 | ⟨d, hdm, hdeq⟩
      · exact Or.inl hmem2
      · exact Or.inr ⟨d, hdm, hdeq.symm⟩
    · rcases hvl with ⟨hl, hev⟩ | ⟨hl, hev⟩ | hev
      · exact Or.inl ⟨hl, hev⟩
      · exact Or.inr (Or.inl ⟨hl, hev⟩)
      · exact Or.inr (Or.inr ⟨hev, hlift2⟩)
    · intro hueq
      by_cases hbb : event = "B" ∧ lift = "B"
      · exact hbb
      · exact absurd ⟨hueq, hbb⟩ hu
    · intro hbd hgear
      exact hb (Or.inl ⟨hbd, hgear⟩)
    · intro hst hraw
      exact hb (Or.inr ⟨hst, hraw⟩)
  · intro hr
    obtain ⟨h1, h2, h3, h4, h5, h6, h7⟩ := hr
    apply (mem_valid_keyset_gen _).mpr
    refine ⟨sex, ?_, division, ?_, event, ?_, lift, ?_, ?_, eqp, h4, ?_, ?_, weight, ?_, rfl⟩
    · rcases h1 with ⟨rfl, _⟩ | ⟨rfl, _⟩ <;> simp [SEXES]
    · simp only [divisions_add_tested, List.mem_append, List.mem_map]
      rcases h2 with hmem2 | ⟨d, hdm, hdeq⟩
      · exact Or.inl hmem2
      · exact Or.inr ⟨d, hdm, hdeq.symm⟩
    · rcases h3 with ⟨_, rfl⟩ | ⟨_, rfl⟩ | ⟨rfl, _⟩ <;> simp [EVENTS]
    · rcases h3 with ⟨rfl, _⟩ | ⟨rfl, _⟩ | ⟨_, hl⟩
      · simp [LIFTS]
      · simp [LIFTS]
      · exact hl
    · rcases h3 with ⟨rfl, rfl⟩ | ⟨rfl, rfl⟩ | ⟨rfl, _⟩
      · exact Or.inl ⟨rfl, rfl⟩
      · exact Or.inr (Or.inl ⟨rfl, rfl⟩)
      · exact Or.inr (Or.inr rfl)
    · rintro ⟨hueq, hnbb⟩
      exact hnbb (h5 hueq)
    · rintro (⟨hbd, hgear⟩ | ⟨hst, hraw⟩)
      · exact h6 hbd hgear
      · exact h7 hst hraw
    · rcases h1 with ⟨rfl, hwm⟩ | ⟨rfl, hwf⟩
      · rw [if_pos rfl]
        exact hwm
      · rw [if_neg (by decide)]
        exact hwf

end Checker

/-- A `filterMap` by a function that fixes every element of the list is the
identity. -/
theorem filterMap_id_of_mem {α : Type} {g : α → Option α} :
    ∀ {l : List α}, (∀ a ∈ l, g a = some a) → l.filterMap g = l
  | [], _ => rfl
  | a :: rest, h => by
    rw [List.filterMap_cons, h a (List.mem_cons_self a rest),
      filterMap_id_of_mem (fun x hx => h x (List.mem_cons_of_mem a hx))]

theorem sorted_record_files_sorted (names : List String) :
    (sorted_record_files names).Pairwise (fun a b => date_name_le a b = true) := by
  haveI : IsTotal ((Nat × Nat × Nat) × String) (fun a b => date_name_le a b = true) :=
    ⟨date_name_le_total⟩
  haveI : IsTrans ((Nat × Nat × Nat) × String) (fun a b => date_name_le a b = true) :=
    ⟨fun _ _ _ => date_name_le_trans⟩
  exact List.sorted_insertionSort _ _

theorem sorted_record_files_mem (names : List String) (p : (Nat × Nat × Nat) × String) :
    p ∈ sorted_record_files names ↔ p.2 ∈ names ∧ parse_filename p.2 = some p.1 := by
  unfold sorted_record_files
  rw [(List.perm_insertionSort _ _).mem_iff, List.mem_filterMap]
  constructor
  · rintro ⟨n, hn, hf⟩
    rcases Option.map_eq_some'.mp hf with ⟨dt, hdt, heq⟩
    obtain ⟨rfl, rfl⟩ : dt = p.1 ∧ n = p.2 := by
      constructor <;> rw [← heq]
    exact ⟨hn, hdt⟩
  · rintro ⟨hn, hp⟩
    refine ⟨p.2, hn, ?_⟩
    rw [hp]
    simp

theorem sorted_record_files_perm_inv {xs ys : List String} (hperm : xs.Perm ys) :
    sorted_record_files xs = sorted_record_files ys := by
  haveI : IsAntisymm ((Nat × Nat × Nat) × String) (fun a b => date_name_le a b = true) :=
    ⟨fun _ _ => date_name_le_antisymm⟩
  have h1 : (sorted_record_files xs).Perm (sorted_record_files ys) := by
    refine ((List.perm_insertionSort _ _).trans ?_).trans (List.perm_insertionSort _ _).symm
    exact hperm.filterMap _
  exact List.eq_of_perm_of_sorted h1 (sorted_record_files_sorted xs)
    (sorted_record_files_sorted ys)

theorem sorted_record_files_idem (names : List String) :
    sorted_record_files ((sorted_record_files names).map Prod.snd) =
      sorted_record_files names := by
  have h1 : ((sorted_record_files names).map Prod.snd).filterMap
      (fun n => (parse_filename n).map (fun dt => (dt, n))) = sorted_record_files names := by
    rw [List.filterMap_map]
    apply filterMap_id_of_mem
    intro p hp
    have hparse := (sorted_record_files_mem names p).mp hp
    show ((parse_filename p.2).map (fun dt => (dt, p.2))) = some p
    rw [hparse.2]
    simp
  show (((sorted_record_files names).map Prod.snd).filterMap
      (fun n => (parse_filename n).map (fun dt => (dt, n)))).insertionSort
      (fun a b => date_name_le a b = true) = sorted_record_files names
  rw [h1]
  exact List.Sorted.insertionSort_eq (sorted_record_files_sorted names)

namespace Wrapped

theorem oldest_ge_total (a b : Int × IncreaseEvent) :
    oldest_ge a b = true ∨ oldest_ge b a = true := by
  simp only [oldest_ge, Bool.or_eq_true, Bool.and_eq_true, decide_eq_true_eq]
  rcases lt_trichotomy a.1 b.1 with h | h | h
  · exact Or.inr (Or.inl h)
  · rcases lt_trichotomy a.2.new b.2.new with h2 | h2 | h2
    · exact Or.inr (Or.inr ⟨h, Or.inl h2⟩)
    · rcases str_le_total a.2.name b.2.name with h3 | h3
      · exact Or.inr (Or.inr ⟨h, Or.inr ⟨h2, h3⟩⟩)
      · exact Or.inl (Or.inr ⟨h.symm, Or.inr ⟨h2.symm, h3⟩⟩)
    · exact Or.inl (Or.inr ⟨h.symm, Or.inl h2⟩)
  · exact Or.inl (Or.inl h)

theorem oldest_ge_trans {a b c : Int × IncreaseEvent}
    (h1 : oldest_ge a b = true) (h2 : oldest_ge b c = true) : oldest_ge a c = true := by
  simp only [oldest_ge, Bool.or_eq_true, Bool.and_eq_true, decide_eq_true_eq] at h1 h2 ⊢
  rcases h1 with h1 | ⟨hb1, h1⟩
  · rcases h2 with h2 | ⟨hb2, _⟩
    · exact Or.inl (lt_trans h2 h1)
    · exact Or.inl (hb2 ▸ h1)
  · rcases h2 with h2 | ⟨hb2, h2⟩
    · exact Or.inl (hb1 ▸ h2)
    · refine Or.inr ⟨hb2.trans hb1, ?_⟩
      rcases h1 with h1 | ⟨hn1, h1⟩
      · rcases h2 with h2 | ⟨hn2, _⟩
        · exact Or.inl (lt_trans h2 h1)
        · exact Or.inl (hn2 ▸ h1)
      · rcases h2 with h2 | ⟨hn2, h2⟩
        · exact Or.inl (hn1 ▸ h2)
        · exact Or.inr ⟨hn2.trans hn1, str_le_trans h2 h1⟩

/-- Spot checks anchoring `days_between` to `datetime.date` subtraction:
a plain year, a leap year, the leap-day crossing in a leap year, a non-leap
year, the 1900 and 2000 century rules, and one mixed span. -/
theorem days_between_spot_checks :
    days_between ⟨2023, 1, 1⟩ ⟨2024, 1, 1⟩ = 365 ∧
    days_between ⟨2020, 1, 1⟩ ⟨2021, 1, 1⟩ = 366 ∧
    days_between ⟨2024, 2, 28⟩ ⟨2024, 3, 1⟩ = 2 ∧
    days_between ⟨2023, 2, 28⟩ ⟨2023, 3, 1⟩ = 1 ∧
    days_between ⟨1900, 2, 28⟩ ⟨1900, 3, 1⟩ = 1 ∧
    days_between ⟨2000, 2, 28⟩ ⟨2000, 3, 1⟩ = 2 ∧
    days_between ⟨2023, 11, 4⟩ ⟨2024, 3, 10⟩ = 127 := by
  decide

end Wrapped

/-- C1: after replaying any prefix of the chronologically ordered sources, the
ledger entry of every key that has appeared carries the maximum weight among
all attempts for that key processed so far, and an attempt whose weight ties
(or falls below) the current entry never replaces it — in the validation-mode
ledger (`check_files`) and in the analytics-mode ledger (`build_report`)
alike. -/
theorem claim_C1_ledger_monotonicity :
    (∀ (pf : String → Option ℚ) (known : List String)
        (root : List (String × List (List String))) (pre rest : List SourceFile),
        sorted_source_files root = pre ++ rest →
        ∀ key ∈ (Checker.chk_pairs pf pre).map Prod.fst,
          ∃ w src, Checker.check_ledger pf known pre key = some (w, src) ∧
            w ∈ key_weights Prod.fst key (Checker.chk_pairs pf pre) ∧
            ∀ x ∈ key_weights Prod.fst key (Checker.chk_pairs pf pre), x ≤ w) ∧
    (∀ (pf : String → Option ℚ) (target_year : Nat)
        (root : List (String × List (List String))) (pre rest : List SourceFile),
        Wrapped.sorted_event_files root = pre ++ rest →
        ∀ key ∈ (Wrapped.wr_pairs pf pre).map Prod.fst,
          ∃ e : Wrapped.Entry, Wrapped.wr_ledger pf target_year pre key = some e ∧
            e.weight ∈ key_weights Wrapped.Entry.weight key (Wrapped.wr_pairs pf pre) ∧
            ∀ x ∈ key_weights Wrapped.Entry.weight key (Wrapped.wr_pairs pf pre),
              x ≤ e.weight) ∧
    (∀ (known : List String) (file : String) (st : List Checker.Warning × Checker.Ledger)
        (r : Checker.Row) (pw : ℚ) (ps : String),
        st.2 r.key = some (pw, ps) → r.weight ≤ pw →
        (Checker.check_row known file st r).2 = st.2) ∧
    (∀ (target_year year month day : Nat) (file : String) (st : Wrapped.Report)
        (row : Wrapped.ParsedRow) (e : Wrapped.Entry),
        st.records row.key = some e → row.weight ≤ e.weight →
        (Wrapped.report_row target_year year month day file st row).records = st.records) := by
  refine ⟨?_, ?_, ?_, ?_⟩
  · intro pf known root pre rest hpre key hkey
    rw [Checker.check_ledger_eq]
    rcases best_fold_max Prod.fst (Checker.chk_pairs pf pre) key with ⟨_, hemp⟩ | ⟨v, hv, hmem, hmax⟩
    · exact absurd hemp (key_weights_ne_nil Prod.fst hkey)
    · obtain ⟨w, src⟩ := v
      exact ⟨w, src, hv, hmem, hmax⟩
  · intro pf target_year root pre rest hpre key hkey
    rw [Wrapped.wr_ledger_eq]
    rcases best_fold_max Wrapped.Entry.weight (Wrapped.wr_pairs pf pre) key with
      ⟨_, hemp⟩ | ⟨v, hv, hmem, hmax⟩
    · exact absurd hemp (key_weights_ne_nil Wrapped.Entry.weight hkey)
    · exact ⟨v, hv, hmem, hmax⟩
  · intro known file st r pw ps h hle
    rw [Checker.check_row_snd]
    simp [best_step, h, hle]
  · intro target_year year month day file st row e h hle
    rw [Wrapped.report_row_records]
    simp [best_step, h, Wrapped.attempt_entry, hle]

/-- Witness for C1 at one concrete replay: a single 2024 file with one
attempt, plus concrete tie steps against a one-entry ledger. -/
theorem claim_C1_ledger_monotonicity_witness :
    (∃ w src,
      Checker.check_ledger float_samples []
          [⟨(2024, 0, 0), "2024.csv", [["M|Open|SBD|Raw|90|B", "100", "Alice"]]⟩]
          "M|Open|SBD|Raw|90|B" = some (w, src) ∧
        w ∈ key_weights Prod.fst "M|Open|SBD|Raw|90|B"
            (Checker.chk_pairs float_samples
              [⟨(2024, 0, 0), "2024.csv", [["M|Open|SBD|Raw|90|B", "100", "Alice"]]⟩]) ∧
        ∀ x ∈ key_weights Prod.fst "M|Open|SBD|Raw|90|B"
            (Checker.chk_pairs float_samples
              [⟨(2024, 0, 0), "2024.csv", [["M|Open|SBD|Raw|90|B", "100", "Alice"]]⟩]),
          x ≤ w) ∧
    (∃ e : Wrapped.Entry,
      Wrapped.wr_ledger float_samples 2024
          [⟨(2024, 0, 0), "2024.csv", [["M|Open|SBD|Raw|90|B", "100", "Alice"]]⟩]
          "M|Open|SBD|Raw|90|B" = some e ∧
        e.weight ∈ key_weights Wrapped.Entry.weight "M|Open|SBD|Raw|90|B"
            (Wrapped.wr_pairs float_samples
              [⟨(2024, 0, 0), "2024.csv", [["M|Open|SBD|Raw|90|B", "100", "Alice"]]⟩]) ∧
        ∀ x ∈ key_weights Wrapped.Entry.weight "M|Open|SBD|Raw|90|B"
            (Wrapped.wr_pairs float_samples
              [⟨(2024, 0, 0), "2024.csv", [["M|Open|SBD|Raw|90|B", "100", "Alice"]]⟩]),
          x ≤ e.weight) ∧
    (Checker.check_row [] "2024.csv"
        ([], fun k => if k = "M|Open|SBD|Raw|90|B" then some ((100 : ℚ), "2024.csv") else none)
        ⟨2, "M|Open|SBD|Raw|90|B", 90, "Bob"⟩).2 =
      (fun k => if k = "M|Open|SBD|Raw|90|B" then some ((100 : ℚ), "2024.csv") else none) ∧
    (Wrapped.report_row 2024 2024 0 0 "2024.csv"
        { Wrapped.init_report with records :=
            (fun k => if k = "M|Open|SBD|Raw|90|B" then
              some (⟨100, ⟨2024, 1, 1⟩, "2024.csv", false⟩ : Wrapped.Entry) else none) }
        ⟨"M|Open|SBD|Raw|90|B", 90, "Bob", ""⟩).records =
      (fun k => if k = "M|Open|SBD|Raw|90|B" then
        some (⟨100, ⟨2024, 1, 1⟩, "2024.csv", false⟩ : Wrapped.Entry) else none) := by
  refine ⟨?_, ?_, ?_, ?_⟩
  · exact claim_C1_ledger_monotonicity.1 float_samples []
      [("2024.csv", [["M|Open|SBD|Raw|90|B", "100", "Alice"]])]
      [⟨(2024, 0, 0), "2024.csv", [["M|Open|SBD|Raw|90|B", "100", "Alice"]]⟩] []
      (by decide) "M|Open|SBD|Raw|90|B" (by decide)
  · exact claim_C1_ledger_monotonicity.2.1 float_samples 2024
      [("2024.csv", [["M|Open|SBD|Raw|90|B", "100", "Alice"]])]
      [⟨(2024, 0, 0), "2024.csv", [["M|Open|SBD|Raw|90|B", "100", "Alice"]]⟩] []
      (by decide) "M|Open|SBD|Raw|90|B" (by decide)
  · exact claim_C1_ledger_monotonicity.2.2.1 [] "2024.csv" _
      ⟨2, "M|Open|SBD|Raw|90|B", 90, "Bob"⟩ 100 "2024.csv" (by simp) (by norm_num)
  · exact claim_C1_ledger_monotonicity.2.2.2 2024 2024 0 0 "2024.csv" _
      ⟨"M|Open|SBD|Raw|90|B", 90, "Bob", ""⟩ ⟨100, ⟨2024, 1, 1⟩, "2024.csv", false⟩
      (by simp) (by norm_num)

/-- C4: an attempt whose weight is less than or equal to the existing ledger
entry for its key makes validation mode append exactly one non-increasing
warning carrying the new value, the prior value and the prior value's source
file; analytics mode emits no event and changes no count (the whole report
state is untouched); and in both modes the ledger is left unchanged. -/
theorem claim_C4_tie_and_decrease :
    (∀ (known : List String) (file : String) (st : List Checker.Warning × Checker.Ledger)
        (r : Checker.Row) (pw : ℚ) (ps : String),
        st.2 r.key = some (pw, ps) → r.weight ≤ pw →
        Checker.check_row known file st r =
          (st.1 ++ (if r.key ∈ known then []
              else [Checker.Warning.unrecognizedKey r.key file r.line r.name]) ++
            [Checker.Warning.nonIncreasing r.key file r.line r.weight pw ps],
            st.2)) ∧
    (∀ (target_year year month day : Nat) (file : String) (st : Wrapped.Report)
        (row : Wrapped.ParsedRow) (e : Wrapped.Entry),
        st.records row.key = some e → row.weight ≤ e.weight →
        Wrapped.report_row target_year year month day file st row = st) := by
  constructor
  · intro known file st r pw ps h hle
    unfold Checker.check_row
    rw [h]
    by_cases hm : r.key ∈ known <;> simp [hm, hle]
  · intro target_year year month day file st row e h hle
    apply Wrapped.report_row_skip
    unfold Wrapped.is_new_best
    rw [h]
    simpa using not_lt.mpr hle

/-- Witness for C4: a 90 kg attempt against an existing 100 kg entry, in both
modes. -/
theorem claim_C4_tie_and_decrease_witness :
    Checker.check_row ["M|Open|SBD|Raw|90|B"] "2024.csv"
        ([], fun k => if k = "M|Open|SBD|Raw|90|B" then some ((100 : ℚ), "2023.csv") else none)
        ⟨1, "M|Open|SBD|Raw|90|B", 90, "Bob"⟩ =
      ([Checker.Warning.nonIncreasing "M|Open|SBD|Raw|90|B" "2024.csv" 1 90 100 "2023.csv"],
        fun k => if k = "M|Open|SBD|Raw|90|B" then some ((100 : ℚ), "2023.csv") else none) ∧
    Wrapped.report_row 2024 2024 0 0 "2024.csv"
        { Wrapped.init_report with records :=
            (fun k => if k = "M|Open|SBD|Raw|90|B" then
              some (⟨100, ⟨2023, 1, 1⟩, "2023.csv", false⟩ : Wrapped.Entry) else none) }
        ⟨"M|Open|SBD|Raw|90|B", 100, "Bob", ""⟩ =
      { Wrapped.init_report with records :=
          (fun k => if k = "M|Open|SBD|Raw|90|B" then
            some (⟨100, ⟨2023, 1, 1⟩, "2023.csv", false⟩ : Wrapped.Entry) else none) } := by
  constructor
  · have h := claim_C4_tie_and_decrease.1 ["M|Open|SBD|Raw|90|B"] "2024.csv"
      ([], fun k => if k = "M|Open|SBD|Raw|90|B" then some ((100 : ℚ), "2023.csv") else none)
      ⟨1, "M|Open|SBD|Raw|90|B", 90, "Bob"⟩ 100 "2023.csv" (by simp) (by norm_num)
    simpa using h
  · exact claim_C4_tie_and_decrease.2 2024 2024 0 0 "2024.csv" _
      ⟨"M|Open|SBD|Raw|90|B", 100, "Bob", ""⟩ ⟨100, ⟨2023, 1, 1⟩, "2023.csv", false⟩
      (by simp) (by norm_num)

/-- C7: in validation mode an attempt with a key outside the keyspace gets an
unrecognized-key warning, yet participates in the ledger exactly like a
recognized key (the ledger step does not depend on the key set at all), so an
unknown key can create an entry, be improved on, and additionally draw a
non-increasing warning on the same row — both warnings can fire for one row,
as the concrete two-row run shows. -/
theorem claim_C7_unrecognized_key_independence :
    (∀ (known : List String) (file : String) (st : List Checker.Warning × Checker.Ledger)
        (r : Checker.Row), r.key ∉ known →
        (Checker.check_row known file st r).1 =
          (st.1 ++ [Checker.Warning.unrecognizedKey r.key file r.line r.name]) ++
            (match st.2 r.key with
             | none => []
             | some (pw, ps) =>
               if r.weight ≤ pw then
                 [Checker.Warning.nonIncreasing r.key file r.line r.weight pw ps]
               else [])) ∧
    (∀ (known1 known2 : List String) (file : String) (ws1 ws2 : List Checker.Warning)
        (led : Checker.Ledger) (r : Checker.Row),
        (Checker.check_row known1 file (ws1, led) r).2 =
          (Checker.check_row known2 file (ws2, led) r).2) ∧
    ("X|Foo|SBD|Raw|90|S" ∉ Checker.valid_keyset ∧
      Checker.check_files float_samples
          [⟨(2024, 0, 0), "2024.csv",
            [["X|Foo|SBD|Raw|90|S", "100", "Carol"], ["X|Foo|SBD|Raw|90|S", "90", "Dan"]]⟩] =
        [Checker.Warning.unrecognizedKey "X|Foo|SBD|Raw|90|S" "2024.csv" 1 "Carol",
          Checker.Warning.unrecognizedKey "X|Foo|SBD|Raw|90|S" "2024.csv" 2 "Dan",
          Checker.Warning.nonIncreasing "X|Foo|SBD|Raw|90|S" "2024.csv" 2 90 100 "2024.csv"]) := by
  have hnm : "X|Foo|SBD|Raw|90|S" ∉ Checker.valid_keyset := by
    intro hmem
    have heq : "X|Foo|SBD|Raw|90|S" = Checker.mkKey "X" "Foo" "SBD" "Raw" "90" "S" := by rfl
    rw [heq] at hmem
    have hr := (Checker.mem_valid_keyset_iff "X" "Foo" "SBD" "Raw" "90" "S"
      (by decide) (by decide) (by decide) (by decide) (by decide)).mp hmem
    rcases hr.1 with ⟨hX, _⟩ | ⟨hX, _⟩ <;> exact absurd hX (by decide)
  refine ⟨?_, ?_, hnm, ?_⟩
  · intro known file st r hk
    rw [Checker.check_row_fst]
    unfold Checker.row_warnings
    rw [if_neg hk, List.append_assoc]
  · intro known1 known2 file ws1 ws2 led r
    rw [Checker.check_row_snd, Checker.check_row_snd]
  · unfold Checker.check_files Checker.check_files_with Checker.check_file
    rw [if_neg (by decide)]
    simp only [List.foldl_cons, List.foldl_nil]
    have hread : (Checker.read_rows float_samples "2024.csv"
        [["X|Foo|SBD|Raw|90|S", "100", "Carol"], ["X|Foo|SBD|Raw|90|S", "90", "Dan"]]).1 =
        [⟨1, "X|Foo|SBD|Raw|90|S", 100, "Carol"⟩, ⟨2, "X|Foo|SBD|Raw|90|S", 90, "Dan"⟩] := by
      decide
    rw [hread]
    norm_num [Checker.check_row, Checker.ledger_set, hnm]

/-- Witness for C7: an unknown key on an empty ledger gets its warning, and
one concrete ledger step is identical under two different key sets. -/
theorem claim_C7_unrecognized_key_independence_witness :
    (Checker.check_row [] "2024.csv" ([], fun _ => none)
        ⟨1, "X|Foo|SBD|Raw|90|S", 100, "Carol"⟩).1 =
      [Checker.Warning.unrecognizedKey "X|Foo|SBD|Raw|90|S" "2024.csv" 1 "Carol"] ∧
    (Checker.check_row [] "2024.csv" ([], fun _ => none)
        ⟨1, "X|Foo|SBD|Raw|90|S", 100, "Carol"⟩).2 =
      (Checker.check_row ["X|Foo|SBD|Raw|90|S"] "2024.csv"
        ([Checker.Warning.noFiles], fun _ => none)
        ⟨1, "X|Foo|SBD|Raw|90|S", 100, "Carol"⟩).2 := by
  constructor
  · have h := claim_C7_unrecognized_key_independence.1 [] "2024.csv" ([], fun _ => none)
      ⟨1, "X|Foo|SBD|Raw|90|S", 100, "Carol"⟩ (by simp)
    simpa using h
  · exact claim_C7_unrecognized_key_independence.2.1 [] ["X|Foo|SBD|Raw|90|S"] "2024.csv"
      [] [Checker.Warning.noFiles] (fun _ => none) ⟨1, "X|Foo|SBD|Raw|90|S", 100, "Carol"⟩

/-- C9: the analytics-mode reader yields an attempt for every row with at
least three columns and a parseable weight, with no key guard at all (so an
empty trimmed key flows through, can create a ledger entry and be counted as
a record), while the validation-mode reader silently skips a row whose
trimmed key is empty — no attempt and no warning. -/
theorem claim_C9_empty_key_reader :
    (∀ (pf : String → Option ℚ) (row : List String) (w : ℚ),
        3 ≤ row.length → pf (row.getD 1 "") = some w →
        Wrapped.read_row pf row =
          some ⟨strip (row.getD 0 ""), w, strip (row.getD 2 ""),
            if 4 < row.length then strip (row.getD 4 "") else ""⟩) ∧
    (∀ (pf : String → Option ℚ) (file : String) (p : Nat × List String),
        strip (p.2.getD 0 "") = "" →
        Checker.read_row pf file p = (none, [])) ∧
    (Wrapped.read_row float_samples ["", "100", "Alice"] = some ⟨"", 100, "Alice", ""⟩ ∧
      (Wrapped.build_report float_samples 2024 [("2024.csv", [["", "100", "Alice"]])]).records ""
        = some ⟨100, ⟨2024, 1, 1⟩, "2024.csv", false⟩ ∧
      (Wrapped.build_report float_samples 2024
        [("2024.csv", [["", "100", "Alice"]])]).total_broken = 1 ∧
      (Wrapped.build_report float_samples 2024
        [("2024.csv", [["", "100", "Alice"]])]).new_records = 1 ∧
      Checker.read_row float_samples "2024.csv" (1, ["", "100", "Alice"]) = (none, [])) := by
  refine ⟨?_, ?_, by decide, by decide, by decide, by decide, by decide⟩
  · intro pf row w h3 hw
    unfold Wrapped.read_row
    rw [if_neg (not_lt.mpr h3), hw]
  · intro pf file p hkey
    unfold Checker.read_row
    by_cases hlen : p.2.length < 2
    · rw [if_pos hlen]
    · rw [if_neg hlen]
      dsimp only
      rw [hkey, if_pos rfl]

/-- Witness for C9: the empty-key row itself, through both readers. -/
theorem claim_C9_empty_key_reader_witness :
    Wrapped.read_row float_samples ["", "100", "Alice"] =
      some ⟨strip "", 100, strip "Alice", if 4 < (["", "100", "Alice"] : List String).length
        then strip "" else ""⟩ ∧
    Checker.read_row float_samples "2024.csv" (1, [" ", "100", "Alice"]) = (none, []) := by
  constructor
  · exact claim_C9_empty_key_reader.1 float_samples ["", "100", "Alice"] 100
      (by decide) (by decide)
  · exact claim_C9_empty_key_reader.2.1 float_samples "2024.csv" (1, [" ", "100", "Alice"])
      (by decide)

/-- C10: for a key with fewer than two pipe-separated parts, `is_tested` and
`is_open_division` are both `False` (total, no out-of-range access), so a
qualifying attempt with such a key is counted in the untested leaderboard,
never in the tested one, and never reaches the Open-division event list. -/
theorem claim_C10_malformed_key_totality :
    (∀ key : String, (split_on_pipe key.data).length < 2 →
        Wrapped.is_tested key = false ∧ Wrapped.is_open_division key = false) ∧
    (∀ (target_year year month day : Nat) (file : String) (st : Wrapped.Report)
        (row : Wrapped.ParsedRow),
        (split_on_pipe row.key.data).length < 2 →
        (Wrapped.report_row target_year year month day file st row).open_increase_events
            = st.open_increase_events ∧
        (Wrapped.is_new_best (st.records row.key) row.weight = true →
          (year == target_year) = true →
          (Wrapped.report_row target_year year month day file st row).name_counts_untested
              row.name = st.name_counts_untested row.name + 1 ∧
          (Wrapped.report_row target_year year month day file st row).name_counts_tested
              = st.name_counts_tested)) := by
  have htested : ∀ key : String, (split_on_pipe key.data).length < 2 →
      Wrapped.is_tested key = false := by
    intro key hlen
    unfold Wrapped.is_tested
    rw [if_pos hlen]
  have hopen : ∀ key : String, (split_on_pipe key.data).length < 2 →
      Wrapped.is_open_division key = false := by
    intro key hlen
    unfold Wrapped.is_open_division
    rw [if_pos hlen]
  refine ⟨fun key hlen => ⟨htested key hlen, hopen key hlen⟩, ?_⟩
  intro target_year year month day file st row hlen
  refine ⟨Wrapped.report_row_open_frame _ _ _ _ _ _ _ (hopen row.key hlen), ?_⟩
  intro hnb hy
  obtain ⟨_, _, _, hts, hus⟩ := Wrapped.report_row_counts target_year year month day file
    st row hnb hy
  constructor
  · rw [hus, if_neg (by simp [htested row.key hlen])]
    simp [Wrapped.bump]
  · rw [hts, if_neg (by simp [htested row.key hlen])]

/-- Witness for C10: the malformed key `"nokey"` on a fresh state in the
target year. -/
theorem claim_C10_malformed_key_totality_witness :
    (Wrapped.is_tested "nokey" = false ∧ Wrapped.is_open_division "nokey" = false) ∧
    (Wrapped.report_row 2024 2024 0 0 "2024.csv" Wrapped.init_report
        ⟨"nokey", 100, "Alice", ""⟩).open_increase_events
      = Wrapped.init_report.open_increase_events ∧
    (Wrapped.report_row 2024 2024 0 0 "2024.csv" Wrapped.init_report
        ⟨"nokey", 100, "Alice", ""⟩).name_counts_untested "Alice"
      = Wrapped.init_report.name_counts_untested "Alice" + 1 ∧
    (Wrapped.report_row 2024 2024 0 0 "2024.csv" Wrapped.init_report
        ⟨"nokey", 100, "Alice", ""⟩).name_counts_tested
      = Wrapped.init_report.name_counts_tested := by
  have h1 := claim_C10_malformed_key_totality.1 "nokey" (by decide)
  have h2 := claim_C10_malformed_key_totality.2 2024 2024 0 0 "2024.csv" Wrapped.init_report
    ⟨"nokey", 100, "Alice", ""⟩ (by decide)
  have h3 := h2.2 (by decide) (by decide)
  exact ⟨h1, h2.1, h3.1, h3.2⟩

/-- C2: an attempt contributes to the analytics accumulators iff it is a new
best and its file's year equals the target year; every new best from any year
still updates the ledger; and the concrete 2023/2024 scenario for target year
2024 yields exactly one improvement event with previous 200, new 210,
delta 10. -/
theorem claim_C2_analytics_year_filtering :
    (∀ (target_year year month day : Nat) (file : String) (st : Wrapped.Report)
        (row : Wrapped.ParsedRow),
        (Wrapped.is_new_best (st.records row.key) row.weight && (year == target_year)) = false →
        (Wrapped.report_row target_year year month day file st row).total_broken
            = st.total_broken ∧
        (Wrapped.report_row target_year year month day file st row).new_records
            = st.new_records ∧
        (Wrapped.report_row target_year year month day file st row).location_counts
            = st.location_counts ∧
        (Wrapped.report_row target_year year month day file st row).name_counts
            = st.name_counts ∧
        (Wrapped.report_row target_year year month day file st row).name_counts_untested
            = st.name_counts_untested ∧
        (Wrapped.report_row target_year year month day file st row).name_counts_tested
            = st.name_counts_tested ∧
        (Wrapped.report_row target_year year month day file st row).increase_events
            = st.increase_events ∧
        (Wrapped.report_row target_year year month day file st row).open_increase_events
            = st.open_increase_events ∧
        (Wrapped.report_row target_year year month day file st row).name_increase_totals
            = st.name_increase_totals ∧
        (Wrapped.report_row target_year year month day file st row).total_increase
            = st.total_increase) ∧
    (∀ (target_year year month day : Nat) (file : String) (st : Wrapped.Report)
        (row : Wrapped.ParsedRow),
        Wrapped.is_new_best (st.records row.key) row.weight = true →
        (year == target_year) = true →
        (Wrapped.report_row target_year year month day file st row).total_broken
          = st.total_broken + 1) ∧
    (∀ (target_year year month day : Nat) (file : String) (st : Wrapped.Report)
        (row : Wrapped.ParsedRow),
        Wrapped.is_new_best (st.records row.key) row.weight = true →
        (Wrapped.report_row target_year year month day file st row).records =
          Wrapped.entry_set st.records row.key
            (Wrapped.attempt_entry year month day file row)) ∧
    (∃ e : Wrapped.IncreaseEvent,
      (Wrapped.build_report float_samples 2024 scenario_root).increase_events = [e] ∧
      e.previous = 200 ∧ e.new = 210 ∧ e.delta = 10 ∧
      e.previous_date = ⟨2023, 1, 1⟩ ∧ e.current_date = ⟨2024, 1, 1⟩ ∧
      e.previous_source_file = "2023.csv" ∧ e.source_file = "2024.csv" ∧
      (Wrapped.build_report float_samples 2024 scenario_root).total_broken = 1 ∧
      (Wrapped.build_report float_samples 2024 scenario_root).new_records = 0 ∧
      (Wrapped.build_report float_samples 2024 scenario_root).location_counts "CityGym" = 1 ∧
      (Wrapped.build_report float_samples 2024 scenario_root).name_counts "Alice" = 1 ∧
      (Wrapped.build_report float_samples 2024 scenario_root).total_increase = 10) := by
  refine ⟨?_, ?_, ?_, ?_⟩
  · intro target_year year month day file st row h
    exact Wrapped.report_row_analytics_frame target_year year month day file st row h
  · intro target_year year month day file st row hnb hy
    exact (Wrapped.report_row_counts target_year year month day file st row hnb hy).1
  · intro target_year year month day file st row hnb
    exact Wrapped.report_row_records_newbest target_year year month day file st row hnb
  · refine ⟨⟨"Alice", "M|Open|SBD|Raw|90|S", "CityGym", 200, 210, 210 - 200,
      ⟨2023, 1, 1⟩, ⟨2024, 1, 1⟩, false, "2023.csv", "2024.csv"⟩,
      rfl, rfl, rfl, by norm_num, rfl, rfl, rfl, rfl, rfl, rfl, rfl, rfl, ?_⟩
    show (0 : ℚ) + (210 - 200) = 10
    norm_num

/-- Witness for C2: one out-of-target-year new best (not counted, but
ledgered) and one in-target-year new best (counted). -/
theorem claim_C2_analytics_year_filtering_witness :
    ((Wrapped.report_row 2024 2023 0 0 "2023.csv" Wrapped.init_report
        ⟨"M|Open|SBD|Raw|90|S", 200, "Alice", ""⟩).total_broken
      = Wrapped.init_report.total_broken) ∧
    ((Wrapped.report_row 2024 2024 0 0 "2024.csv" Wrapped.init_report
        ⟨"M|Open|SBD|Raw|90|S", 200, "Alice", ""⟩).total_broken
      = Wrapped.init_report.total_broken + 1) ∧
    ((Wrapped.report_row 2024 2023 0 0 "2023.csv" Wrapped.init_report
        ⟨"M|Open|SBD|Raw|90|S", 200, "Alice", ""⟩).records =
      Wrapped.entry_set Wrapped.init_report.records "M|Open|SBD|Raw|90|S"
        (Wrapped.attempt_entry 2023 0 0 "2023.csv" ⟨"M|Open|SBD|Raw|90|S", 200, "Alice", ""⟩)) := by
  refine ⟨?_, ?_, ?_⟩
  · exact (claim_C2_analytics_year_filtering.1 2024 2023 0 0 "2023.csv" Wrapped.init_report
      ⟨"M|Open|SBD|Raw|90|S", 200, "Alice", ""⟩ (by decide)).1
  · exact claim_C2_analytics_year_filtering.2.1 2024 2024 0 0 "2024.csv" Wrapped.init_report
      ⟨"M|Open|SBD|Raw|90|S", 200, "Alice", ""⟩ (by decide) (by decide)
  · exact claim_C2_analytics_year_filtering.2.2.1 2024 2023 0 0 "2023.csv" Wrapped.init_report
      ⟨"M|Open|SBD|Raw|90|S", 200, "Alice", ""⟩ (by decide)

/-- C3: a key `sex|division|event|equipment|weightClass|lift` built from
pipe-free components is in the generated keyspace exactly when all the
combinatorial rules hold: sex M/F with its sex-specific class list, a bracket
division optionally suffixed `-D`, a lift valid for the event, and the
equipment cross-constraints (`Unlimited` only for bench-in-bench-event,
no Bare/Sleeves/Wraps on bench or deadlift, no Raw on squat or total). -/
theorem claim_C3_valid_keyspace_membership :
    ∀ (sex division event eqp weight lift : String),
      '|' ∉ sex.data → '|' ∉ division.data → '|' ∉ event.data →
      '|' ∉ eqp.data → '|' ∉ weight.data →
      (Checker.mkKey sex division event eqp weight lift ∈ Checker.valid_keyset ↔
        Checker.valid_key_rules sex division event eqp weight lift) :=
  fun sex division event eqp weight lift hs hd he hq hw =>
    Checker.mem_valid_keyset_iff sex division event eqp weight lift hs hd he hq hw

/-- Witness for C3: two admissible keys (one tested division, one `Unlimited`
bench) are members; `Unlimited` outside the bench-only event is not. -/
theorem claim_C3_valid_keyspace_membership_witness :
    Checker.mkKey "M" "Open" "SBD" "Raw" "90" "B" ∈ Checker.valid_keyset ∧
    Checker.mkKey "F" "Open-D" "B" "Unlimited" "52" "B" ∈ Checker.valid_keyset ∧
    Checker.mkKey "M" "Open" "SBD" "Unlimited" "90" "S" ∉ Checker.valid_keyset := by
  refine ⟨?_, ?_, ?_⟩
  · exact (claim_C3_valid_keyspace_membership "M" "Open" "SBD" "Raw" "90" "B"
      (by decide) (by decide) (by decide) (by decide) (by decide)).mpr
      (by unfold Checker.valid_key_rules; decide)
  · exact (claim_C3_valid_keyspace_membership "F" "Open-D" "B" "Unlimited" "52" "B"
      (by decide) (by decide) (by decide) (by decide) (by decide)).mpr
      (by unfold Checker.valid_key_rules; decide)
  · intro hmem
    exact absurd ((claim_C3_valid_keyspace_membership "M" "Open" "SBD" "Unlimited" "90" "S"
      (by decide) (by decide) (by decide) (by decide) (by decide)).mp hmem)
      (by unfold Checker.valid_key_rules; decide)

namespace Checker

/-- Whatever `read_row` surfaces immediately is an invalid-weight warning. -/
theorem read_row_invalid_only (pf : String → Option ℚ) (file : String) (p : Nat × List String) :
    ∀ w ∈ (read_row pf file p).2, is_invalid_weight w = true := by
  intro w hw
  unfold read_row at hw
  by_cases h1 : p.2.length < 2
  · rw [if_pos h1] at hw
    simp at hw
  · rw [if_neg h1] at hw
    dsimp only at hw
    by_cases h2 : strip (p.2.getD 0 "") = ""
    · rw [if_pos h2] at hw
      simp at hw
    · rw [if_neg h2] at hw
      cases h3 : pf (p.2.getD 1 "") with
      | none =>
        rw [h3] at hw
        simp at hw
        subst hw
        rfl
      | some wv =>
        rw [h3] at hw
        simp at hw

end Checker

/-- C5 (amended): unrecognized-key and non-increasing warnings are accumulated
append-only, in source and row order, into the single list whose length is the
summary count; invalid-weight warnings never enter that list — they are
printed immediately while the readers are consumed and are excluded from the
summary count. -/
theorem claim_C5_warning_accumulation :
    (∀ (known : List String) (file : String) (st : List Checker.Warning × Checker.Ledger)
        (r : Checker.Row),
        (Checker.check_row known file st r).1 =
          st.1 ++ Checker.row_warnings known file st.2 r) ∧
    (∀ (pf : String → Option ℚ) (known : List String) (ws : List Checker.Warning)
        (led : Checker.Ledger) (f : SourceFile),
        (Checker.check_file pf known (ws, led) f).1 =
          ws ++ (Checker.check_file pf known ([], led) f).1) ∧
    (∀ (pf : String → Option ℚ) (root : List (String × List (List String))),
        (Checker.main pf root).summary_count = (Checker.main pf root).warnings.length) ∧
    (∀ (pf : String → Option ℚ) (files : List SourceFile) (w : Checker.Warning),
        w ∈ Checker.check_files pf files → Checker.is_invalid_weight w = false) ∧
    (∀ (pf : String → Option ℚ) (files : List SourceFile) (w : Checker.Warning),
        w ∈ Checker.printed_parse_warnings pf files →
          Checker.is_invalid_weight w = true) := by
  refine ⟨Checker.check_row_fst, Checker.check_file_shift, fun pf root => rfl, ?_, ?_⟩
  · intro pf files w hw
    unfold Checker.check_files Checker.check_files_with at hw
    by_cases hemp : files.isEmpty = true
    · rw [if_pos hemp] at hw
      simp at hw
      subst hw
      rfl
    · rw [if_neg hemp] at hw
      rcases Checker.files_foldl_not_invalid pf Checker.valid_keyset files [] (fun _ => none)
        w hw with h | h
      · exact absurd h (List.not_mem_nil w)
      · exact h
  · intro pf files w hw
    unfold Checker.printed_parse_warnings at hw
    rcases List.mem_flatMap.mp hw with ⟨f, hf, hw2⟩
    unfold Checker.read_rows at hw2
    dsimp only at hw2
    rcases List.mem_flatMap.mp hw2 with ⟨res, hres, hw3⟩
    rcases List.mem_map.mp hres with ⟨p, hp, hpe⟩
    subst hpe
    exact Checker.read_row_invalid_only pf f.name p w hw3

/-- Counterexample to C5 as stated: with one unparseable-weight row, the run
surfaces one invalid-weight warning, but the accumulated output list stays
empty and the summary count is 0, not the total number of surfaced
warnings. -/
theorem claim_C5_counterexample :
    (Checker.main float_samples [("2024.csv", [["M|Open|SBD|Raw|90|S", "abc", "Al"]])]).printed_parse
        = [Checker.Warning.invalidWeight "2024.csv" 1 "abc"] ∧
    (Checker.main float_samples [("2024.csv", [["M|Open|SBD|Raw|90|S", "abc", "Al"]])]).warnings
        = [] ∧
    (Checker.main float_samples
        [("2024.csv", [["M|Open|SBD|Raw|90|S", "abc", "Al"]])]).summary_count = 0 ∧
    Checker.Warning.invalidWeight "2024.csv" 1 "abc" ∉
      (Checker.main float_samples [("2024.csv", [["M|Open|SBD|Raw|90|S", "abc", "Al"]])]).warnings ∧
    (Checker.main float_samples
        [("2024.csv", [["M|Open|SBD|Raw|90|S", "abc", "Al"]])]).summary_count ≠
      ((Checker.main float_samples
          [("2024.csv", [["M|Open|SBD|Raw|90|S", "abc", "Al"]])]).warnings ++
        (Checker.main float_samples
          [("2024.csv", [["M|Open|SBD|Raw|90|S", "abc", "Al"]])]).printed_parse).length := by
  refine ⟨?_, ?_, ?_, ?_, ?_⟩ <;> decide

/-- Witness for C5 (amended) at concrete inputs: the summary count equals the
accumulated length, a no-files run accumulates only the (non-invalid-weight)
no-files warning, and the surfaced invalid-weight warning of the
one-bad-row run is of the invalid-weight kind. -/
theorem claim_C5_warning_accumulation_witness :
    (Checker.check_row [] "2024.csv" ([], fun _ => none) ⟨1, "k", 100, "n"⟩).1 =
      [] ++ Checker.row_warnings [] "2024.csv" (fun _ => none) ⟨1, "k", 100, "n"⟩ ∧
    (Checker.main float_samples []).summary_count =
      (Checker.main float_samples []).warnings.length ∧
    Checker.is_invalid_weight Checker.Warning.noFiles = false ∧
    Checker.is_invalid_weight (Checker.Warning.invalidWeight "2024.csv" 1 "abc") = true := by
  refine ⟨claim_C5_warning_accumulation.1 [] "2024.csv" ([], fun _ => none) ⟨1, "k", 100, "n"⟩,
    claim_C5_warning_accumulation.2.2.1 float_samples [], ?_, ?_⟩
  · exact claim_C5_warning_accumulation.2.2.2.1 float_samples [] Checker.Warning.noFiles
      (by decide)
  · exact claim_C5_warning_accumulation.2.2.2.2 float_samples
      [⟨(2024, 0, 0), "2024.csv", [["M|Open|SBD|Raw|90|S", "abc", "Al"]]⟩]
      (Checker.Warning.invalidWeight "2024.csv" 1 "abc") (by decide)

/-- A string ending in `" days"` never equals one ending in `" years"`. -/
theorem days_text_ne_years_text (a b : String) : a ++ " days" ≠ b ++ " years" := by
  intro h
  have h2 := congrArg (fun s => s.data.reverse) h
  simp only [String.data_append, List.reverse_append] at h2
  have ha : (" days" : String).data.reverse = ['s', 'y', 'a', 'd', ' '] := rfl
  have hb : (" years" : String).data.reverse = ['s', 'r', 'a', 'e', 'y', ' '] := rfl
  rw [ha, hb] at h2
  simp at h2

/-- C6: `format_oldest_broken` computes each event's age as the day difference
`current_date - previous_date`, ranks descending by that day-count with ties
broken by descending new weight then descending name, and displays the
day-count exactly when the previous entry had day precision, whole calendar
years otherwise. -/
theorem claim_C6_oldest_broken_ranking :
    ∀ events : List Wrapped.IncreaseEvent,
      (Wrapped.sorted_age_events events).Perm (Wrapped.age_events events) ∧
      (Wrapped.sorted_age_events events).Pairwise
        (fun a b => Wrapped.oldest_ge a b = true) ∧
      (∀ p ∈ Wrapped.sorted_age_events events,
        p.1 = Wrapped.days_between p.2.previous_date p.2.current_date) ∧
      (∀ (d : Int) (e : Wrapped.IncreaseEvent),
        (Wrapped.age_text d e = toString d ++ " days" ↔ e.previous_has_exact_date = true) ∧
        (Wrapped.age_text d e =
            toString ((e.current_date.year : Int) - (e.previous_date.year : Int)) ++ " years" ↔
          e.previous_has_exact_date = false)) ∧
      (∀ s ∈ Wrapped.format_oldest_broken events,
        ∃ p ∈ Wrapped.sorted_age_events events, s = Wrapped.age_text p.1 p.2) := by
  intro events
  refine ⟨List.perm_insertionSort _ _, ?_, ?_, ?_, ?_⟩
  · haveI : IsTotal (Int × Wrapped.IncreaseEvent) (fun a b => Wrapped.oldest_ge a b = true) :=
      ⟨Wrapped.oldest_ge_total⟩
    haveI : IsTrans (Int × Wrapped.IncreaseEvent) (fun a b => Wrapped.oldest_ge a b = true) :=
      ⟨fun _ _ _ => Wrapped.oldest_ge_trans⟩
    exact List.sorted_insertionSort _ _
  · intro p hp
    have hp2 : p ∈ Wrapped.age_events events :=
      (List.perm_insertionSort _ _).mem_iff.mp hp
    rcases List.mem_map.mp hp2 with ⟨e, _, hpe⟩
    rw [← hpe]
  · intro d e
    cases hprec : e.previous_has_exact_date with
    | true =>
      constructor
      · exact ⟨fun _ => rfl, fun _ => by unfold Wrapped.age_text; rw [if_pos hprec]⟩
      · constructor
        · intro habs
          unfold Wrapped.age_text at habs
          rw [if_pos hprec] at habs
          exact absurd habs (days_text_ne_years_text _ _)
        · intro hfalse
          exact absurd hfalse (by simp [hprec])
    | false =>
      constructor
      · constructor
        · intro habs
          unfold Wrapped.age_text at habs
          rw [if_neg (by simp [hprec])] at habs
          exact absurd habs.symm (days_text_ne_years_text _ _)
        · intro htrue
          exact absurd htrue (by simp [hprec])
      · exact ⟨fun _ => rfl, fun _ => by unfold Wrapped.age_text; rw [if_neg (by simp [hprec])]⟩
  · intro s hs
    unfold Wrapped.format_oldest_broken at hs
    rcases List.mem_map.mp hs with ⟨p, hp, hpe⟩
    exact ⟨p, List.mem_of_mem_take hp, hpe.symm⟩

/-- Witness for C6 on a one-event list with an exact-dated previous entry. -/
theorem claim_C6_oldest_broken_ranking_witness :
    (Wrapped.sorted_age_events
        [⟨"Alice", "k", "", 100, 110, 10, ⟨2020, 1, 1⟩, ⟨2024, 1, 1⟩, true, "a.csv", "b.csv"⟩]).Perm
      (Wrapped.age_events
        [⟨"Alice", "k", "", 100, 110, 10, ⟨2020, 1, 1⟩, ⟨2024, 1, 1⟩, true, "a.csv", "b.csv"⟩]) ∧
    ((1461 : Int),
        (⟨"Alice", "k", "", 100, 110, 10, ⟨2020, 1, 1⟩, ⟨2024, 1, 1⟩, true, "a.csv",
          "b.csv"⟩ : Wrapped.IncreaseEvent)).1 =
      Wrapped.days_between ⟨2020, 1, 1⟩ ⟨2024, 1, 1⟩ ∧
    (Wrapped.age_text 1461
        ⟨"Alice", "k", "", 100, 110, 10, ⟨2020, 1, 1⟩, ⟨2024, 1, 1⟩, true, "a.csv", "b.csv"⟩ =
      toString (1461 : Int) ++ " days") := by
  have h := claim_C6_oldest_broken_ranking
    [⟨"Alice", "k", "", 100, 110, 10, ⟨2020, 1, 1⟩, ⟨2024, 1, 1⟩, true, "a.csv", "b.csv"⟩]
  refine ⟨h.1, ?_, ?_⟩
  · exact h.2.2.1 ((1461 : Int),
      ⟨"Alice", "k", "", 100, 110, 10, ⟨2020, 1, 1⟩, ⟨2024, 1, 1⟩, true, "a.csv", "b.csv"⟩)
      (by decide)
  · exact (h.2.2.2.1 1461
      ⟨"Alice", "k", "", 100, 110, 10, ⟨2020, 1, 1⟩, ⟨2024, 1, 1⟩, true, "a.csv", "b.csv"⟩).1.mpr
      rfl

/-- C8 (amended): the sequencer keeps exactly the names matching `YYYY.csv`
or `YYYY-MM-DD.csv` (absent month/day parse as 0), returns them sorted
ascending by `(year, month, day, name)`, is input-order independent and
idempotent; a year-only file sorts strictly before any dated file of the same
year whose encoded month or day is nonzero (a `-00-00` dated file ties on the
date key and is ordered by name instead). -/
theorem claim_C8_sequencer_total_sort :
    (∀ (names : List String) (p : (Nat × Nat × Nat) × String),
        p ∈ sorted_record_files names ↔ p.2 ∈ names ∧ parse_filename p.2 = some p.1) ∧
    (∀ names : List String,
        (sorted_record_files names).Pairwise (fun a b => date_name_le a b = true)) ∧
    (∀ xs ys : List String, xs.Perm ys → sorted_record_files xs = sorted_record_files ys) ∧
    (∀ names : List String,
        sorted_record_files ((sorted_record_files names).map Prod.snd) =
          sorted_record_files names) ∧
    (∀ (y m d : Nat) (n1 n2 : String), 0 < m ∨ 0 < d →
        date_name_le ((y, 0, 0), n1) ((y, m, d), n2) = true ∧
        date_name_le ((y, m, d), n2) ((y, 0, 0), n1) = false) := by
  refine ⟨sorted_record_files_mem, sorted_record_files_sorted,
    fun xs ys => sorted_record_files_perm_inv, sorted_record_files_idem, ?_⟩
  intro y m d n1 n2 h
  constructor
  · simp only [date_name_le, Bool.or_eq_true, Bool.and_eq_true, decide_eq_true_eq]
    rcases Nat.eq_zero_or_pos m with rfl | hm
    · rcases h with h | h
      · exact absurd h (lt_irrefl 0)
      · exact Or.inr ⟨trivial, Or.inr ⟨rfl, Or.inl h⟩⟩
    · exact Or.inr ⟨trivial, Or.inl hm⟩
  · rcases Nat.eq_zero_or_pos m with rfl | hm
    · rcases h with h | h
      · exact absurd h (lt_irrefl 0)
      · simp [date_name_le, Nat.pos_iff_ne_zero.mp h]
    · simp [date_name_le, Nat.pos_iff_ne_zero.mp hm]

/-- Counterexample to C8 as stated: `2024-00-00.csv` matches the dated
pattern with month and day 0, so it carries the same date key `(2024, 0, 0)`
as the year-only `2024.csv` and the name tie-break puts the dated file
first — the year-only file does not sort before this dated file of the same
year. -/
theorem claim_C8_counterexample :
    parse_filename "2024-00-00.csv" = some (2024, 0, 0) ∧
    parse_filename "2024.csv" = some (2024, 0, 0) ∧
    sorted_record_files ["2024.csv", "2024-00-00.csv"] =
      [((2024, 0, 0), "2024-00-00.csv"), ((2024, 0, 0), "2024.csv")] := by
  refine ⟨?_, ?_, ?_⟩ <;> decide

/-- Witness for C8: input-order independence on a concrete pair and the
year-only-before-dated comparison at a nonzero month. -/
theorem claim_C8_sequencer_total_sort_witness :
    sorted_record_files ["2024-03-10.csv", "2023.csv"] =
      sorted_record_files ["2023.csv", "2024-03-10.csv"] ∧
    (date_name_le ((2024, 0, 0), "2024.csv") ((2024, 3, 10), "2024-03-10.csv") = true ∧
      date_name_le ((2024, 3, 10), "2024-03-10.csv") ((2024, 0, 0), "2024.csv") = false) ∧
    (((2024, 3, 10), "2024-03-10.csv") ∈ sorted_record_files ["2024-03-10.csv", "2023.csv"] ↔
      "2024-03-10.csv" ∈ ["2024-03-10.csv", "2023.csv"] ∧
        parse_filename "2024-03-10.csv" = some (2024, 3, 10)) := by
  refine ⟨?_, ?_, ?_⟩
  · exact claim_C8_sequencer_total_sort.2.2.1 ["2024-03-10.csv", "2023.csv"]
      ["2023.csv", "2024-03-10.csv"] (by decide)
  · exact claim_C8_sequencer_total_sort.2.2.2.2 2024 3 10 "2024.csv" "2024-03-10.csv"
      (by decide)
  · exact claim_C8_sequencer_total_sort.1 ["2024-03-10.csv", "2023.csv"]
      ((2024, 3, 10), "2024-03-10.csv")

end BestFold
